import Mathlib

/-!
Verification of the HTML → outline → ID-anchored injection core of the
Multimodal-Content-Enricher repository.

The development shallowly embeds `src/article_processor.py` (outline
extraction `html_to_article_view` and slot injection
`inject_images_into_html`) and `src/widget_components.py` (widget
renderers) over a DOM-style tree of nodes, and proves or refutes the
specified properties of those functions.
-/

namespace MCE

/-- A DOM-style node as manipulated by BeautifulSoup: an element with a
tag name, an association list of attributes and a list of children, or a
text node. -/
inductive Node where
  | text (s : String)
  | elem (tag : String) (attrs : List (String × String)) (children : List Node)
deriving Repr

mutual

def nodeDecEq : (a b : Node) → Decidable (a = b)
  | .text s, .text t =>
      if h : s = t then .isTrue (by rw [h]) else .isFalse (by intro hc; cases hc; exact h rfl)
  | .text _, .elem _ _ _ => .isFalse (by intro hc; cases hc)
  | .elem _ _ _, .text _ => .isFalse (by intro hc; cases hc)
  | .elem t1 a1 c1, .elem t2 a2 c2 =>
      if h1 : t1 = t2 then
        if h2 : a1 = a2 then
          match forestDecEq c1 c2 with
          | .isTrue h3 => .isTrue (by rw [h1, h2, h3])
          | .isFalse h3 => .isFalse (by intro hc; cases hc; exact h3 rfl)
        else .isFalse (by intro hc; cases hc; exact h2 rfl)
      else .isFalse (by intro hc; cases hc; exact h1 rfl)

def forestDecEq : (a b : List Node) → Decidable (a = b)
  | [], [] => .isTrue rfl
  | [], _ :: _ => .isFalse (by intro hc; cases hc)
  | _ :: _, [] => .isFalse (by intro hc; cases hc)
  | x :: xs, y :: ys =>
      match nodeDecEq x y with
      | .isTrue h1 =>
        match forestDecEq xs ys with
        | .isTrue h2 => .isTrue (by rw [h1, h2])
        | .isFalse h2 => .isFalse (by intro hc; cases hc; exact h2 rfl)
      | .isFalse h1 => .isFalse (by intro hc; cases hc; exact h1 rfl)

end

instance : DecidableEq Node := nodeDecEq

/-- Look up an attribute value in an attribute list (first binding wins,
mirroring the unique-key dict of the Python DOM library). -/
def getAttrL (a : List (String × String)) (k : String) : Option String :=
  match a with
  | [] => none
  | (k', v) :: rest => if k' = k then some v else getAttrL rest k

/-- Set an attribute: replace the existing binding in place, or append a
new one (models `tag["id"] = value`). -/
def setAttr (a : List (String × String)) (k v : String) : List (String × String) :=
  match a with
  | [] => [(k, v)]
  | (k', v') :: rest => if k' = k then (k, v) :: rest else (k', v') :: setAttr rest k v

/-- Strip leading and trailing whitespace from a character list. -/
def trimChars (cs : List Char) : List Char :=
  ((cs.dropWhile Char.isWhitespace).reverse.dropWhile Char.isWhitespace).reverse

/-- Whitespace-stripping of a string, modelling Python `str.strip()`.
Defined over the character data so that it evaluates by kernel reduction. -/
def strim (s : String) : String :=
  String.mk (trimChars s.data)

mutual

/-- Text content of a node with per-string stripping, modelling
BeautifulSoup `get_text(strip=True)`: each text descendant is stripped
and the results are concatenated in document order. -/
def getTextN : Node → String
  | .text s => strim s
  | .elem _ _ c => getTextF c

def getTextF : List Node → String
  | [] => ""
  | n :: rest => getTextN n ++ getTextF rest

end

mutual

/-- All `id` attribute values carried by elements of a subtree, in
pre-order (document order). -/
def allIdsN : Node → List String
  | .text _ => []
  | .elem _ a c =>
      (match getAttrL a "id" with | some i => [i] | none => []) ++ allIdsF c

def allIdsF : List Node → List String
  | [] => []
  | n :: rest => allIdsN n ++ allIdsF rest

end

mutual

/-- Whether some element of the subtree carries `id` attribute `i`. -/
def containsIdN (i : String) : Node → Bool
  | .text _ => false
  | .elem _ a c => (getAttrL a "id" == some i) || containsIdF i c

def containsIdF (i : String) : List Node → Bool
  | [] => false
  | n :: rest => containsIdN i n || containsIdF i rest

end

/-- Whether some element of the forest carries `id` attribute `i`
(the search space of `soup.find(id=i)`). -/
def containsId (i : String) (ns : List Node) : Bool :=
  containsIdF i ns

/-- Heading tag names, as in `HEADING_TAGS` of the source. -/
def HEADING_TAGS : List String := ["h1", "h2", "h3", "h4", "h5", "h6"]

/-- Value of a decimal digit character. -/
def digitVal (c : Char) : Nat :=
  if c = '0' then 0 else if c = '1' then 1 else if c = '2' then 2 else if c = '3' then 3
  else if c = '4' then 4 else if c = '5' then 5 else if c = '6' then 6 else if c = '7' then 7
  else if c = '8' then 8 else 9

/-- Heading depth, modelling `int(tag.name[1])` on `h1`..`h6` (the
source reads exactly the second character of the tag name). -/
def headingLevel (t : String) : Nat :=
  match t.data.drop 1 with
  | c :: _ => digitVal c
  | [] => 0

/-- Split a class attribute string into whitespace-separated class names
(dropping empty pieces), as the DOM library presents `tag.get("class")`. -/
def splitClassesAux : List Char → List Char → List String
  | [], acc => if acc = [] then [] else [String.mk acc.reverse]
  | c :: rest, acc =>
      if c.isWhitespace then
        (if acc = [] then splitClassesAux rest []
         else String.mk acc.reverse :: splitClassesAux rest [])
      else splitClassesAux rest (c :: acc)

/-- Class list of an attribute list (empty when no class attribute). -/
def classList (a : List (String × String)) : List String :=
  splitClassesAux ((getAttrL a "class").getD "").data []

/-- The paragraph-like test of the extraction loop: a `p` tag, or a
`span` tag carrying both the `mb-4` and `block` classes. -/
def isParagraphLike (t : String) (a : List (String × String)) : Bool :=
  t = "p" || (t = "span" && (classList a).contains "mb-4" && (classList a).contains "block")

/-- A paragraph entry of the article view: `{"id": ..., "text": ...}`. -/
structure Paragraph where
  id : String
  text : String
deriving Repr, DecidableEq

/-- A section entry of the article view. -/
structure Section where
  id : String
  level : Nat
  heading : String
  paragraphs : List Paragraph
deriving Repr, DecidableEq

/-- The JSON-able article view returned by `html_to_article_view`. -/
structure ArticleView where
  title : String
  sections : List Section
deriving Repr, DecidableEq

/-- Traversal state of the extraction loop: the two ordinal counters, the
sections accumulated so far (the current section is the last one; it is
`None` exactly when the list is empty), and whether the title `<h1>` is
still to be skipped. -/
structure ExtState where
  secCtr : Nat
  parCtr : Nat
  sections : List Section
  skipTitle : Bool
deriving Repr, DecidableEq

/-- Append a paragraph to the last (current) section. -/
def appendPara (ss : List Section) (p : Paragraph) : List Section :=
  match ss with
  | [] => []
  | [s] => [{ s with paragraphs := s.paragraphs ++ [p] }]
  | s :: rest => s :: appendPara rest p

/-- Generated section id `sec_<n>`. -/
def secName (n : Nat) : String := "sec_" ++ toString n

/-- Generated paragraph id `p_<n>`. -/
def parName (n : Nat) : String := "p_" ++ toString n

/-- The id-assignment rule `tag.get("id") or generated`: reuse an
existing non-empty id verbatim, otherwise use the generated one
(Python's `or` treats the empty string like an absent attribute). -/
def reuseId (o : Option String) (g : String) : String :=
  match o with
  | some s => if s = "" then g else s
  | none => g

mutual

/-- One step of the extraction loop of `html_to_article_view` on a single
node, returning the rewritten node (possibly preceded by a freshly
inserted synthetic anchor) and the updated traversal state.  The loop
body mirrors lines 29-77 of `article_processor.py`: headings (except the
title `<h1>`) open sections, paragraph-like elements are appended to the
current section, and a paragraph arriving before any heading lazily
creates the synthetic "Introduction" section together with an anchor
`<div>` inserted immediately before it. -/
def walkN : ExtState → Node → List Node × ExtState
  | st, .text s => ([.text s], st)
  | st, .elem t a c =>
      if t ∈ HEADING_TAGS then
        if t = "h1" && st.skipTitle then
          let (c', st1) := walkF { st with skipTitle := false } c
          ([.elem t a c'], st1)
        else
          let n1 := st.secCtr + 1
          let sid := reuseId (getAttrL a "id") (secName n1)
          let st1 : ExtState :=
            { st with
              secCtr := n1
              sections := st.sections ++
                [{ id := sid, level := headingLevel t, heading := getTextF c, paragraphs := [] }] }
          let (c', st2) := walkF st1 c
          ([.elem t (setAttr a "id" sid) c'], st2)
      else if isParagraphLike t a then
        let m1 := st.parCtr + 1
        let pid := reuseId (getAttrL a "id") (parName m1)
        let st1 : ExtState := { st with parCtr := m1 }
        let (anchors, st2) :=
          if st1.sections = [] then
            ([Node.elem "div" [("id", secName (st1.secCtr + 1))] []],
             { st1 with
               secCtr := st1.secCtr + 1
               sections := [{ id := secName (st1.secCtr + 1), level := 2,
                              heading := "Introduction", paragraphs := [] }] })
          else ([], st1)
        let st3 : ExtState :=
          { st2 with sections := appendPara st2.sections { id := pid, text := getTextF c } }
        let (c', st4) := walkF st3 c
        (anchors ++ [Node.elem t (setAttr a "id" pid) c'], st4)
      else
        let (c', st1) := walkF st c
        ([.elem t a c'], st1)

def walkF : ExtState → List Node → List Node × ExtState
  | st, [] => ([], st)
  | st, n :: rest =>
      let (ns, st1) := walkN st n
      let (rest', st2) := walkF st1 rest
      (ns ++ rest', st2)

end

mutual

/-- Text of the first `<h1>` descendant in pre-order, modelling
`article.find("h1")` followed by `get_text(strip=True)`. -/
def firstH1TextN : Node → Option String
  | .text _ => none
  | .elem t _ c => if t = "h1" then some (getTextF c) else firstH1TextF c

def firstH1TextF : List Node → Option String
  | [] => none
  | n :: rest =>
      match firstH1TextN n with
      | some s => some s
      | none => firstH1TextF rest

end

/-- Initial state of the extraction traversal. -/
def initState : ExtState :=
  { secCtr := 0, parCtr := 0, sections := [], skipTitle := true }

/-- Process the article element: compute the title from the first `<h1>`
descendant, walk all heading/paragraph-like descendants, and return the
mutated article together with the built view. -/
def processArticle : Node → Node × ArticleView
  | .elem t a c =>
      let title := (firstH1TextF c).getD ""
      let (c', st) := walkF initState c
      (.elem t a c', { title := title, sections := st.sections })
  | .text s => (.text s, { title := "", sections := [] })

mutual

/-- Rewrite the first node (in pre-order) satisfying `p` using `f`,
returning the rewritten document and `f`'s second result; `none` when no
node matches.  This models `soup.find(...)` followed by in-place
mutation of the found element. -/
def mapFirstN {α : Type} (p : Node → Bool) (f : Node → Node × α) : Node → Option (Node × α)
  | .text s => if p (.text s) then some (f (.text s)) else none
  | .elem t a c =>
      if p (.elem t a c) then some (f (.elem t a c))
      else
        match mapFirstF p f c with
        | some (c', v) => some (.elem t a c', v)
        | none => none

def mapFirstF {α : Type} (p : Node → Bool) (f : Node → Node × α) : List Node → Option (List Node × α)
  | [] => none
  | n :: rest =>
      match mapFirstN p f n with
      | some (n', v) => some (n' :: rest, v)
      | none =>
        match mapFirstF p f rest with
        | some (rest', v) => some (n :: rest', v)
        | none => none

end

/-- Test for `<article itemtype="https://schema.org/Article">`. -/
def isArticleSchema : Node → Bool
  | .elem t a _ => t == "article" && getAttrL a "itemtype" == some "https://schema.org/Article"
  | .text _ => false

/-- Test for any `<article>` element. -/
def isArticleTag : Node → Bool
  | .elem t _ _ => t == "article"
  | .text _ => false

/-- Embedding of `html_to_article_view` (`article_processor.py`, lines
6-82): locate the article root (schema-marked article first, any article
as fallback, error when absent), extract the title, walk the descendants
assigning ids, and return the mutated document with the article view. -/
def html_to_article_view (doc : List Node) : Except String (List Node × ArticleView) :=
  match mapFirstF isArticleSchema processArticle doc with
  | some r => .ok r
  | none =>
    match mapFirstF isArticleTag processArticle doc with
    | some r => .ok r
    | none => .error "No <article> tag found in HTML."

/-- An image or widget slot record as consumed by the injector.  Absent
dict keys are `none` (for `alt_text`/`caption` the `.get(key, "")`
default makes an absent key indistinguishable from `""`, so those are
plain strings).  `widget_html` is the pre-rendered widget payload used
only by the spec-modelled `inject_slots_into_html`. -/
structure Slot where
  section_id : Option String := none
  paragraph_id : Option String := none
  position : Option String := none
  image_url : Option String := none
  alt_text : String := ""
  caption : String := ""
  widget_html : Option String := none
deriving Repr, DecidableEq

/-- Whether a node is an element carrying `id` attribute `i`
(the match test of `soup.find(id=i)`). -/
def nodeHasId (i : String) : Node → Bool
  | .text _ => false
  | .elem _ a _ => getAttrL a "id" == some i

mutual

/-- Insert `x` immediately before (`before = true`) or after the first
element in pre-order carrying id `tid`, modelling
`anchor.insert_before(figure)` / `anchor.insert_after(figure)` applied
to the element found by `soup.find(id=tid)`.  The boolean reports
whether a matching element was found; when it is `false` the forest is
returned unchanged. -/
def insertRelN (before : Bool) (tid : String) (x : Node) : Node → Node × Bool
  | .text s => (.text s, false)
  | .elem t a c =>
      let (c', found) := insertRelF before tid x c
      if found then (.elem t a c', true) else (.elem t a c, false)

def insertRelF (before : Bool) (tid : String) (x : Node) : List Node → List Node × Bool
  | [] => ([], false)
  | n :: rest =>
      if nodeHasId tid n then
        (if before then x :: n :: rest else n :: x :: rest, true)
      else
        let (n', found) := insertRelN before tid x n
        if found then (n' :: rest, true)
        else
          let (rest', f2) := insertRelF before tid x rest
          (n :: rest', f2)

end

/-- Anchor resolution of the injector (lines 101-108 of
`article_processor.py`): try `paragraph_id` when present, fall back to
`section_id`, and report the id whose first occurrence the insertions
will be relative to (`none` when neither resolves). -/
def resolveAnchorId (doc : List Node) (slot : Slot) : Option String :=
  let bySec : Option String :=
    match slot.section_id with
    | some sid => if containsId sid doc then some sid else none
    | none => none
  match slot.paragraph_id with
  | some pid => if containsId pid doc then some pid else bySec
  | none => bySec

/-- The `<figure class="mm-slot">` fragment built for an image slot
(lines 110-116): an `<img src alt>` followed by a `<figcaption>`. -/
def buildFigure (slot : Slot) (url : String) : Node :=
  Node.elem "figure" [("class", "mm-slot")]
    [Node.elem "img" [("src", url), ("alt", slot.alt_text)] [],
     Node.elem "figcaption" [] [Node.text slot.caption]]

/-- Placement of a built fragment relative to the resolved anchor
(lines 118-134): `before`/`after` use the primary anchor,
`before_heading`/`after_heading` re-resolve to the section anchor when
`section_id` is truthy and findable, degrading to the primary anchor
otherwise; any other position (or an absent one) behaves as `after`. -/
def placeFragment (doc : List Node) (slot : Slot) (aid : String) (frag : Node) : List Node :=
  let pos := slot.position.getD "after"
  let headingTarget : String :=
    match slot.section_id with
    | some sid => if sid ≠ "" && containsId sid doc then sid else aid
    | none => aid
  if pos = "before" then (insertRelF true aid frag doc).1
  else if pos = "before_heading" then (insertRelF true headingTarget frag doc).1
  else if pos = "after_heading" then (insertRelF false headingTarget frag doc).1
  else (insertRelF false aid frag doc).1

/-- One iteration of the injection loop (lines 90-134): skip slots with
a falsy `image_url`, resolve the anchor (skipping silently when neither
id resolves), build the figure and place it. -/
def injectSlot (doc : List Node) (slot : Slot) : List Node :=
  match slot.image_url with
  | none => doc
  | some url =>
      if url = "" then doc
      else
        match resolveAnchorId doc slot with
        | none => doc
        | some aid => placeFragment doc slot aid (buildFigure slot url)

/-- Embedding of `inject_images_into_html` (`article_processor.py`,
lines 85-137): fold the per-slot insertion over the slot list in order. -/
def inject_images_into_html (doc : List Node) (image_slots : List Slot) : List Node :=
  image_slots.foldl injectSlot doc

/-- Wrapper marking a widget payload as a system-inserted node.
Modelled from the spec: the widget-capable injector
`inject_slots_into_html` is imported by `main.py` but absent from the
repository sources; per §4.2 a widget slot "becomes the literal
pre-rendered HTML fragment, wrapped so it is identifiable as a
system-inserted node (a distinguishing marker class)". -/
def widgetWrapper (w : String) : Node :=
  Node.elem "div" [("class", "mm-slot")] [Node.text w]

/-- One slot of the widget-capable injector.
Modelled from the spec: `inject_slots_into_html` is missing from the
sources (only its caller `main.py` exists), so this follows §4.2 of the
spec: the anchor is resolved exactly as for image slots, a widget slot
becomes its literal pre-rendered fragment in the marker wrapper, an
image slot becomes the captioned figure, and placement is shared. -/
def injectSlot2 (doc : List Node) (slot : Slot) : List Node :=
  let frag? : Option Node :=
    match slot.widget_html with
    | some w => some (widgetWrapper w)
    | none =>
        match slot.image_url with
        | some url => if url = "" then none else some (buildFigure slot url)
        | none => none
  match frag? with
  | none => doc
  | some frag =>
      match resolveAnchorId doc slot with
      | none => doc
      | some aid => placeFragment doc slot aid frag

/-- Modelled from the spec: the widget-capable injector
`inject_slots_into_html` imported by `main.py` (absent from the
sources), folding `injectSlot2` over the batch in order. -/
def inject_slots_into_html (doc : List Node) (slots : List Slot) : List Node :=
  slots.foldl injectSlot2 doc

/-- A data row handed to a widget renderer: one dict of the
`List[Dict[str, str]]` payloads of `widget_components.py`, with every
key the renderers read.  `get(key, "")` makes an absent key equal to an
empty value, so fields default to `""`; `values` is the list-valued key
of `key_facts` rows (the source also accepts a bare string there and
wraps it into a one-element list). -/
structure Row where
  date : String := ""
  title : String := ""
  description : String := ""
  label : String := ""
  value : String := ""
  note : String := ""
  term : String := ""
  definition : String := ""
  values : List String := []
deriving Repr, DecidableEq

/-- One timeline entry of `render_timeline`. -/
def timelineItem (e : Row) : String :=
  "\n    <div class=\"flex gap-2.5\">\n      <div class=\"flex flex-col items-center\">\n        <span class=\"w-2 h-2 rounded-full border-2 border-sky-500 dark:border-sky-400 mt-1\"></span>\n        <span class=\"w-px flex-1 bg-neutral-300 dark:bg-neutral-700\"></span>\n      </div>\n      <div class=\"pb-2\">\n        <time class=\"text-[11px] font-semibold text-sky-600 dark:text-sky-400\">"
    ++ e.date
    ++ "</time>\n        <h4 class=\"text-sm font-semibold text-neutral-900 dark:text-neutral-100\">"
    ++ e.title
    ++ "</h4>\n        <p class=\"text-xs text-neutral-500 dark:text-neutral-400\">"
    ++ e.description
    ++ "</p>\n      </div>\n    </div>\n"

/-- Embedding of `render_timeline` (`widget_components.py`, lines 11-44):
empty event list renders the empty fragment, otherwise a header, the
first eight events, and a footer. -/
def render_timeline (events : List Row) : String :=
  if events = [] then ""
  else
    "\n<div class=\"widget-timeline mb-4 p-4 rounded-xl bg-neutral-50 border border-neutral-200 dark:bg-neutral-900 dark:border-neutral-800\">\n  <h3 class=\"text-base font-semibold mb-3 text-neutral-900 dark:text-neutral-50 flex items-center gap-2\">\n    <svg class=\"w-4 h-4 text-sky-500\" fill=\"none\" stroke=\"currentColor\" viewBox=\"0 0 24 24\"><path stroke-linecap=\"round\" stroke-linejoin=\"round\" stroke-width=\"2\" d=\"M12 8v4l3 3m6-3a9 9 0 11-18 0 9 9 0 0118 0z\"></path></svg>\n    Timeline\n  </h3>\n  <div class=\"space-y-2\">\n"
      ++ ((events.take 8).foldl (fun acc e => acc ++ timelineItem e) "")
      ++ "  </div>\n</div>"

/-- One table row of `render_key_facts`. -/
def keyFactRow (fact : Row) : String :=
  "\n    <tr>\n      <th class=\"py-2 pl-4 pr-4 text-left align-top text-sm font-semibold text-neutral-900 dark:text-neutral-100 whitespace-nowrap\">"
    ++ fact.label
    ++ "</th>\n      <td class=\"py-2 pr-4 text-sm text-neutral-500 dark:text-neutral-400 leading-relaxed\">"
    ++ String.intercalate "<br>" fact.values
    ++ "</td>\n    </tr>"

/-- Embedding of `render_key_facts` (lines 47-86): empty fact list
renders the empty fragment, otherwise an infobox around the first
twelve rows. -/
def render_key_facts (facts : List Row) : String :=
  if facts = [] then ""
  else
    "\n<aside class=\"widget-key-facts w-full md:w-80 mb-4 rounded-xl bg-neutral-50 border border-neutral-200 dark:bg-neutral-900 dark:border-neutral-800 overflow-hidden\">\n  <h3 class=\"text-base font-semibold px-4 py-3 text-neutral-900 dark:text-neutral-50 flex items-center gap-2 border-b border-neutral-200 dark:border-neutral-700\">\n    <svg class=\"w-4 h-4 text-sky-500\" fill=\"none\" stroke=\"currentColor\" viewBox=\"0 0 24 24\"><path stroke-linecap=\"round\" stroke-linejoin=\"round\" stroke-width=\"2\" d=\"M13 16h-1v-4h-1m1-4h.01M21 12a9 9 0 11-18 0 9 9 0 0118 0z\"></path></svg>\n    Key Facts\n  </h3>\n  <table class=\"w-full\">\n    <tbody>\n      "
      ++ ((facts.take 12).foldl (fun acc f => acc ++ keyFactRow f) "")
      ++ "\n    </tbody>\n  </table>\n</aside>\n"

/-- One card of `render_stat_cards`, with the optional note line. -/
def statCard (stat : Row) : String :=
  "\n    <div class=\"p-3 rounded-lg border border-neutral-200 bg-white dark:border-neutral-700 dark:bg-neutral-800 text-center\">\n      <p class=\"text-[11px] uppercase tracking-wide text-neutral-500 dark:text-neutral-400\">"
    ++ stat.label
    ++ "</p>\n      <p class=\"text-lg font-bold text-neutral-900 dark:text-neutral-50\">"
    ++ stat.value
    ++ "</p>\n      "
    ++ (if stat.note ≠ "" then
          "<p class=\"text-[10px] text-neutral-400 dark:text-neutral-500\">" ++ stat.note ++ "</p>"
        else "")
    ++ "\n    </div>\n"

/-- Embedding of `render_stat_cards` (lines 89-117): empty stat list
renders the empty fragment, otherwise a grid of the first six cards. -/
def render_stat_cards (stats : List Row) : String :=
  if stats = [] then ""
  else
    "\n<div class=\"widget-stat-cards mb-4 p-4 rounded-xl bg-neutral-50 border border-neutral-200 dark:bg-neutral-900 dark:border-neutral-800\">\n  <div class=\"grid grid-cols-2 sm:grid-cols-3 gap-2\">\n    "
      ++ ((stats.take 6).foldl (fun acc s => acc ++ statCard s) "")
      ++ "\n  </div>\n</div>\n"

/-- One entry of `render_key_definitions`; entries after the first get a
separating border class. -/
def keyDefinitionItem (i : Nat) (defn : Row) : String :=
  "\n    <div class=\""
    ++ (if 0 < i then "border-t border-neutral-200 dark:border-neutral-700 pt-2 mt-2" else "")
    ++ "\">\n      <span class=\"text-sm font-semibold text-neutral-900 dark:text-neutral-100\">"
    ++ defn.term
    ++ "</span>\n      <span class=\"text-neutral-400 mx-1\">—</span>\n      <span class=\"text-xs text-neutral-500 dark:text-neutral-400\">"
    ++ defn.definition
    ++ "</span>\n    </div>\n"

/-- Embedding of `render_key_definitions` (lines 120-152): empty list
renders the empty fragment, otherwise a box of the first five terms. -/
def render_key_definitions (definitions : List Row) : String :=
  if definitions = [] then ""
  else
    "\n<div class=\"widget-key-definitions mb-4 p-4 rounded-xl bg-neutral-50 border border-neutral-200 dark:bg-neutral-900 dark:border-neutral-800\">\n  <h3 class=\"text-base font-semibold mb-2 text-neutral-900 dark:text-neutral-50 flex items-center gap-2\">\n    <svg class=\"w-4 h-4 text-sky-500\" fill=\"none\" stroke=\"currentColor\" viewBox=\"0 0 24 24\"><path stroke-linecap=\"round\" stroke-linejoin=\"round\" stroke-width=\"2\" d=\"M12 6.253v13m0-13C10.832 5.477 9.246 5 7.5 5S4.168 5.477 3 6.253v13C4.168 18.477 5.754 18 7.5 18s3.332.477 4.5 1.253m0-13C13.168 5.477 14.754 5 16.5 5c1.747 0 3.332.477 4.5 1.253v13C19.832 18.477 18.247 18 16.5 18c-1.746 0-3.332.477-4.5 1.253\"></path></svg>\n    Key Terms\n  </h3>\n  <div>\n    "
      ++ (((definitions.take 5).enum).foldl (fun acc p => acc ++ keyDefinitionItem p.1 p.2) "")
      ++ "\n  </div>\n</div>\n"

/-- The widget types registered in `WIDGET_TYPES` (every registered type
has a truthy renderer). -/
def WIDGET_TYPES : List String := ["timeline", "key_facts", "stat_cards", "key_definitions"]

/-- The fallback markup returned for an unregistered widget type. -/
def unsupportedWidgetDiv (widget_type : String) : String :=
  "<div class=\"widget-unknown p-4 bg-yellow-100\">Unsupported widget: " ++ widget_type ++ "</div>"

/-- Embedding of `render_widget` (`widget_components.py`, lines 176-185):
dispatch on the registered widget types, and return the visible
"Unsupported widget" fallback `<div>` for an unregistered type. -/
def render_widget (widget_type : String) (extracted_data : List Row) : String :=
  if widget_type = "timeline" then render_timeline extracted_data
  else if widget_type = "key_facts" then render_key_facts extracted_data
  else if widget_type = "stat_cards" then render_stat_cards extracted_data
  else if widget_type = "key_definitions" then render_key_definitions extracted_data
  else unsupportedWidgetDiv widget_type

/-- Boolean test that a pre-existing id is "clean": nonempty and not
starting with the `sec_` or `p_` shapes of generated ids, so it can
never collide with an id the extractor generates. -/
def isPre : List Char → List Char → Bool
  | [], _ => true
  | _ :: _, [] => false
  | a :: p, b :: s => a = b && isPre p s

/-- Clean-id check used by the uniqueness hypotheses. -/
def cleanIdB (i : String) : Bool :=
  !(i == "") && !(isPre "sec_".data i.data) && !(isPre "p_".data i.data)

/-- Horner interpretation of a digit list with accumulator. -/
def valFrom (a : Nat) : List Char → Nat
  | [] => a
  | c :: cs => valFrom (10 * a + digitVal c) cs

/-- A node recognizable as one of the injector's inserted
`<figure class="mm-slot">` fragments.  The property only inspects the
tag and attributes, so it is stable under replacing children. -/
def isMmFig (n : Node) : Prop :=
  ∃ c, n = Node.elem "figure" [("class", "mm-slot")] c

/-- `ForestIns P a b`: forest `b` is forest `a` with extra nodes
satisfying `P` inserted, at any position and depth.  Every pre-existing
node is kept in order with its tag and attributes intact; children are
related the same way.  This is the shape of a purely additive,
order-preserving document edit. -/
inductive ForestIns (P : Node → Prop) : List Node → List Node → Prop where
  | nil : ForestIns P [] []
  | cons_text (s : String) {r r' : List Node} :
      ForestIns P r r' → ForestIns P (.text s :: r) (.text s :: r')
  | cons_elem (t : String) (a : List (String × String)) {c c' r r' : List Node} :
      ForestIns P c c' → ForestIns P r r' →
      ForestIns P (.elem t a c :: r) (.elem t a c' :: r')
  | ins {n : Node} {r r' : List Node} : P n → ForestIns P r r' → ForestIns P r (n :: r')

/-- The id assigned to a paragraph-like element. -/
def paraId (st : ExtState) (a : List (String × String)) : String :=
  reuseId (getAttrL a "id") (parName (st.parCtr + 1))

/-- The section opened by a heading element. -/
def headSection (st : ExtState) (t : String) (a : List (String × String))
    (c : List Node) : Section :=
  { id := reuseId (getAttrL a "id") (secName (st.secCtr + 1)), level := headingLevel t,
    heading := getTextF c, paragraphs := [] }

/-- State after opening a heading's section. -/
def headState (st : ExtState) (t : String) (a : List (String × String))
    (c : List Node) : ExtState :=
  { st with
    secCtr := st.secCtr + 1
    sections := st.sections ++ [headSection st t a c] }

/-- State after recording a paragraph when a section is already open. -/
def paraStateNormal (st : ExtState) (a : List (String × String))
    (c : List Node) : ExtState :=
  { st with
    parCtr := st.parCtr + 1
    sections := appendPara st.sections { id := paraId st a, text := getTextF c } }

/-- State after recording a paragraph that triggers the synthetic
Introduction section. -/
def paraStateIntro (st : ExtState) (a : List (String × String))
    (c : List Node) : ExtState :=
  { st with
    parCtr := st.parCtr + 1
    secCtr := st.secCtr + 1
    sections := [{ id := secName (st.secCtr + 1), level := 2, heading := "Introduction",
                   paragraphs := [{ id := paraId st a, text := getTextF c }] }] }

mutual

/-- Whether some node of the subtree satisfies `p` (the match space of
`soup.find(...)`). -/
def anyNodeN (p : Node → Bool) : Node → Bool
  | .text s => p (.text s)
  | .elem t a c => p (.elem t a c) || anyNodeF p c

def anyNodeF (p : Node → Bool) : List Node → Bool
  | [] => false
  | n :: rest => anyNodeN p n || anyNodeF p rest

end

/-- All ids appearing in an outline's section list, in order: each
section id followed by its paragraph ids. -/
def sectionIds : List Section → List String
  | [] => []
  | s :: rest => s.id :: s.paragraphs.map Paragraph.id ++ sectionIds rest

/-- Generated-id window between two traversal states: ids of the form
`sec_<k>` / `p_<k>` whose ordinal was taken between the two states. -/
def inWindow (st st' : ExtState) (i : String) : Prop :=
  (∃ k, st.secCtr < k ∧ k ≤ st'.secCtr ∧ i = secName k) ∨
  (∃ k, st.parCtr < k ∧ k ≤ st'.parCtr ∧ i = parName k)

/-- Number of occurrences of an id in an id list. -/
def countId (i : String) : List String → Nat
  | [] => 0
  | x :: rest => (if x = i then 1 else 0) + countId i rest

def c2doc : List Node :=
  [Node.elem "article" [("itemtype", "https://schema.org/Article")]
    [Node.elem "h2" [("id", "intro")] [Node.text "Overview"],
     Node.elem "p" [] [Node.text "hello"]]]

def c2m : List Node :=
  [Node.elem "article" [("itemtype", "https://schema.org/Article")]
    [Node.elem "h2" [("id", "intro")] [Node.text "Overview"],
     Node.elem "p" [("id", "p_1")] [Node.text "hello"]]]

def c2view : ArticleView :=
  { title := ""
    sections := [{ id := "intro"
                   level := 2
                   heading := "Overview"
                   paragraphs := [{ id := "p_1", text := "hello" }] }] }

/-! ### Decimal printing facts

`Nat.repr` (the engine behind the generated `sec_<n>` / `p_<n>` ids) is
injective; this is proved by interpreting the produced digit list. -/

theorem digitVal_digitChar (m : Nat) (h : m < 10) : digitVal (Nat.digitChar m) = m := by
  interval_cases m <;> rfl

theorem valFrom_toDigitsCore :
    ∀ (fuel n a : Nat) (ds : List Char), n < fuel →
    ∃ e, 0 < e ∧ n < 10 ^ e ∧
      valFrom a (Nat.toDigitsCore 10 fuel n ds) = valFrom (a * 10 ^ e + n) ds := by
  intro fuel
  induction fuel with
  | zero => intro n a ds hn; omega
  | succ fuel ih =>
    intro n a ds hn
    by_cases h : n / 10 = 0
    · have hn10 : n < 10 := by omega
      have hmod : n % 10 = n := Nat.mod_eq_of_lt hn10
      refine ⟨1, Nat.one_pos, by omega, ?_⟩
      simp only [Nat.toDigitsCore, h, if_true, valFrom]
      rw [hmod, digitVal_digitChar n hn10]
      ring_nf
    · have hpos : 0 < n := by
        rcases Nat.eq_zero_or_pos n with h0 | h0
        · subst h0; simp at h
        · exact h0
      have hlt : n / 10 < n := Nat.div_lt_self hpos (by norm_num)
      have hfuel : n / 10 < fuel := by omega
      obtain ⟨e, he, hle, heq⟩ := ih (n / 10) a (Nat.digitChar (n % 10) :: ds) hfuel
      refine ⟨e + 1, by omega, ?_, ?_⟩
      · have hm : n % 10 < 10 := Nat.mod_lt _ (by norm_num)
        have hdm := Nat.div_add_mod n 10
        calc n = 10 * (n / 10) + n % 10 := by omega
          _ < 10 * 10 ^ e := by omega
          _ = 10 ^ (e + 1) := by ring
      · simp only [Nat.toDigitsCore, h, if_false]
        rw [heq]
        simp only [valFrom]
        rw [digitVal_digitChar _ (Nat.mod_lt _ (by norm_num))]
        have hdm := Nat.div_add_mod n 10
        have harith : 10 * (a * 10 ^ e + n / 10) + n % 10 = a * 10 ^ (e + 1) + n := by
          rw [pow_succ]
          ring_nf
          omega
        rw [harith]

theorem toString_nat_inj (m n : Nat) (h : toString m = toString n) : m = n := by
  have hd : Nat.toDigits 10 m = Nat.toDigits 10 n := by
    have hdata : (Nat.repr m).data = (Nat.repr n).data := congrArg String.data h
    simpa [Nat.repr, List.asString] using hdata
  obtain ⟨e1, _, _, h1⟩ := valFrom_toDigitsCore (m + 1) m 0 [] (Nat.lt_succ_self m)
  obtain ⟨e2, _, _, h2⟩ := valFrom_toDigitsCore (n + 1) n 0 [] (Nat.lt_succ_self n)
  have hm : valFrom 0 (Nat.toDigits 10 m) = m := by
    simpa [Nat.toDigits, valFrom] using h1
  have hn : valFrom 0 (Nat.toDigits 10 n) = n := by
    simpa [Nat.toDigits, valFrom] using h2
  rw [← hm, ← hn, hd]

theorem secName_inj (m n : Nat) (h : secName m = secName n) : m = n := by
  apply toString_nat_inj
  have := congrArg String.data h
  simp only [secName, String.data_append] at this
  exact String.ext (List.append_cancel_left this)

theorem parName_inj (m n : Nat) (h : parName m = parName n) : m = n := by
  apply toString_nat_inj
  have := congrArg String.data h
  simp only [parName, String.data_append] at this
  exact String.ext (List.append_cancel_left this)

theorem secName_ne_parName (m n : Nat) : secName m ≠ parName n := by
  intro h
  have := congrArg String.data h
  simp [secName, parName, String.data_append] at this

theorem secName_ne_empty (n : Nat) : secName n ≠ "" := by
  intro h
  have := congrArg String.data h
  simp [secName, String.data_append] at this

theorem parName_ne_empty (n : Nat) : parName n ≠ "" := by
  intro h
  have := congrArg String.data h
  simp [parName, String.data_append] at this

theorem isPre_append_self : ∀ (p t : List Char), isPre p (p ++ t) = true := by
  intro p
  induction p with
  | nil => intro t; rfl
  | cons a p ih => intro t; simp [isPre, ih]

theorem cleanIdB_ne_secName {i : String} (h : cleanIdB i = true) (k : Nat) : i ≠ secName k := by
  intro he
  subst he
  simp only [cleanIdB, Bool.and_eq_true, Bool.not_eq_true'] at h
  have : isPre "sec_".data (secName k).data = true := by
    have hd : (secName k).data = "sec_".data ++ (toString k).data := by
      simp [secName, String.data_append]
    rw [hd]
    exact isPre_append_self _ _
  rw [h.1.2] at this
  cases this

theorem cleanIdB_ne_parName {i : String} (h : cleanIdB i = true) (k : Nat) : i ≠ parName k := by
  intro he
  subst he
  simp only [cleanIdB, Bool.and_eq_true, Bool.not_eq_true'] at h
  have : isPre "p_".data (parName k).data = true := by
    have hd : (parName k).data = "p_".data ++ (toString k).data := by
      simp [parName, String.data_append]
    rw [hd]
    exact isPre_append_self _ _
  rw [h.2] at this
  cases this

theorem cleanIdB_ne_empty {i : String} (h : cleanIdB i = true) : i ≠ "" := by
  simp only [cleanIdB, Bool.and_eq_true, Bool.not_eq_true'] at h
  simpa using h.1.1

/-! ### Attribute list basics -/

theorem getAttr_setAttr_self (a : List (String × String)) (k v : String) :
    getAttrL (setAttr a k v) k = some v := by
  induction a with
  | nil => simp [setAttr, getAttrL]
  | cons kv rest ih =>
      obtain ⟨k', v'⟩ := kv
      by_cases h : k' = k
      · subst h; simp [setAttr, getAttrL]
      · simp [setAttr, getAttrL, h, ih]

theorem getAttr_setAttr_ne (a : List (String × String)) (k v k' : String) (h : k' ≠ k) :
    getAttrL (setAttr a k v) k' = getAttrL a k' := by
  induction a with
  | nil =>
      simp only [setAttr, getAttrL]
      rw [if_neg (fun hc => h hc.symm)]
  | cons kv rest ih =>
      obtain ⟨k0, v0⟩ := kv
      by_cases h0 : k0 = k
      · subst h0
        simp only [setAttr, if_pos rfl, getAttrL]
        rw [if_neg (fun hc => h hc.symm), if_neg]
        intro hc
        exact h hc.symm
      · simp [setAttr, getAttrL, h0, ih]

theorem classList_setAttr_id (a : List (String × String)) (v : String) :
    classList (setAttr a "id" v) = classList a := by
  simp [classList, getAttr_setAttr_ne a "id" v "class" (by decide)]

theorem isParagraphLike_setAttr_id (t : String) (a : List (String × String)) (v : String) :
    isParagraphLike t (setAttr a "id" v) = isParagraphLike t a := by
  simp [isParagraphLike, classList_setAttr_id]

/-! ### C10: widget rendering of unsupported types -/

/-- C10 (counterexample): `render_widget` on the unregistered widget type
`"map"` does not return the empty fragment — it returns the visible
"Unsupported widget" fallback `<div>`, so the caller cannot treat an
unsupported type as a skip. -/
theorem render_widget_unsupported_not_empty : render_widget "map" [] ≠ "" := by decide

/-- C10 (amended): for an unregistered widget type `render_widget`
returns the non-empty "Unsupported widget" fallback `<div>` (not the
empty fragment); the empty fragment, treated as a skip by the caller, is
returned when a registered type's renderer receives empty extracted
data. -/
theorem render_widget_empty_semantics :
    (∀ (wt : String) (rows : List Row), wt ∉ WIDGET_TYPES →
        render_widget wt rows = unsupportedWidgetDiv wt ∧ unsupportedWidgetDiv wt ≠ "")
    ∧ render_widget "timeline" [] = ""
    ∧ render_widget "key_facts" [] = ""
    ∧ render_widget "stat_cards" [] = ""
    ∧ render_widget "key_definitions" [] = "" := by
  refine ⟨?_, rfl, rfl, rfl, rfl⟩
  intro wt rows h
  simp only [WIDGET_TYPES, List.mem_cons, List.not_mem_nil, or_false, not_or] at h
  obtain ⟨h1, h2, h3, h4⟩ := h
  constructor
  · simp [render_widget, h1, h2, h3, h4]
  · intro he
    have := congrArg String.data he
    simp [unsupportedWidgetDiv, String.data_append] at this

/-- C10 (amended, witness): instantiation at the unregistered type
`"map"`. -/
theorem render_widget_empty_semantics_witness :
    render_widget "map" [] = unsupportedWidgetDiv "map" ∧ unsupportedWidgetDiv "map" ≠ "" :=
  render_widget_empty_semantics.1 "map" [] (by decide)

/-! ### C9: ordinal correctness of generated ids -/

/-- C9: on an article whose headings and paragraph-like elements are
interleaved in document order `[h, p, p, h, p, h, p, p]` (with the later
groups nested inside wrapper `<div>`s, exercising nesting independence)
and which carries no pre-existing ids, the sections receive ids
`sec_1, sec_2, sec_3` in document order and the paragraphs receive
`p_1`..`p_5` in document order, grouped under the sections they follow:
the global counters are monotonic across the traversal and independent
of nesting depth. -/
theorem ordinal_correctness (s1 s2 s3 s4 s5 s6 s7 s8 : String) :
    (html_to_article_view [Node.elem "article" []
        [Node.elem "h2" [] [Node.text s1],
         Node.elem "p" [] [Node.text s2],
         Node.elem "p" [] [Node.text s3],
         Node.elem "div" []
           [Node.elem "h3" [] [Node.text s4],
            Node.elem "p" [] [Node.text s5]],
         Node.elem "div" []
           [Node.elem "div" []
             [Node.elem "h2" [] [Node.text s6],
              Node.elem "p" [] [Node.text s7],
              Node.elem "p" [] [Node.text s8]]]]]).map
      (fun r => (r.2.sections.map Section.id,
                 r.2.sections.map (fun s => s.paragraphs.map Paragraph.id))) =
    .ok (["sec_1", "sec_2", "sec_3"], [["p_1", "p_2"], ["p_3"], ["p_4", "p_5"]]) := by
  simp [html_to_article_view, mapFirstF, mapFirstN, isArticleSchema, isArticleTag,
    processArticle, initState, walkF, walkN, getTextF, getTextN, firstH1TextF, firstH1TextN,
    HEADING_TAGS, isParagraphLike, classList, splitClassesAux, getAttrL, appendPara,
    secName, parName, setAttr, Except.map] <;> decide

/-! ### C8: the synthetic Introduction section -/

/-- C8: on an article whose first paragraph-like element precedes any
non-title heading, extraction produces exactly one synthetic first
section with heading `"Introduction"`, level 2 and the freshly generated
id `sec_1`, and inserts an empty zero-content anchor `<div>` carrying
that id immediately before that first paragraph in the mutated HTML. -/
theorem synthetic_introduction (s1 s2 s3 : String) :
    html_to_article_view [Node.elem "article" []
        [Node.elem "p" [] [Node.text s1],
         Node.elem "h2" [] [Node.text s2],
         Node.elem "p" [] [Node.text s3]]] =
      .ok ([Node.elem "article" []
            [Node.elem "div" [("id", "sec_1")] [],
             Node.elem "p" [("id", "p_1")] [Node.text s1],
             Node.elem "h2" [("id", "sec_2")] [Node.text s2],
             Node.elem "p" [("id", "p_2")] [Node.text s3]]],
           { title := "",
             sections := [⟨"sec_1", 2, "Introduction", [⟨"p_1", strim s1⟩]⟩,
                          ⟨"sec_2", 2, strim s2, [⟨"p_2", strim s3⟩]⟩] }) := by
  simp [html_to_article_view, mapFirstF, mapFirstN, isArticleSchema, isArticleTag,
    processArticle, initState, walkF, walkN, getTextF, getTextN, firstH1TextF, firstH1TextN,
    HEADING_TAGS, isParagraphLike, classList, splitClassesAux, getAttrL, appendPara,
    secName, parName, setAttr, headingLevel] <;> decide

/-! ### C1 counterexample: anchors are re-minted on a second pass -/

/-- C1 (counterexample): extracting twice from an article that starts
with a bare paragraph yields identical article views (all ids reused),
but the second pass mints a fresh synthetic anchor `<div id="sec_1">`
for the already-annotated HTML, so the mutated document of pass 2
differs from that of pass 1: the claim that no new anchor elements are
minted on re-extraction is false. -/
theorem extraction_not_fully_idempotent :
    html_to_article_view [Node.elem "article" [] [Node.elem "p" [] [Node.text "hi"]]] =
      .ok ([Node.elem "article" []
             [Node.elem "div" [("id", "sec_1")] [],
              Node.elem "p" [("id", "p_1")] [Node.text "hi"]]],
           { title := "", sections := [⟨"sec_1", 2, "Introduction", [⟨"p_1", "hi"⟩]⟩] })
    ∧ html_to_article_view
        [Node.elem "article" []
          [Node.elem "div" [("id", "sec_1")] [],
           Node.elem "p" [("id", "p_1")] [Node.text "hi"]]] =
      .ok ([Node.elem "article" []
             [Node.elem "div" [("id", "sec_1")] [],
              Node.elem "div" [("id", "sec_1")] [],
              Node.elem "p" [("id", "p_1")] [Node.text "hi"]]],
           { title := "", sections := [⟨"sec_1", 2, "Introduction", [⟨"p_1", "hi"⟩]⟩] })
    ∧ [Node.elem "article" []
         [Node.elem "div" [("id", "sec_1")] [],
          Node.elem "div" [("id", "sec_1")] [],
          Node.elem "p" [("id", "p_1")] [Node.text "hi"]]] ≠
      [Node.elem "article" []
         [Node.elem "div" [("id", "sec_1")] [],
          Node.elem "p" [("id", "p_1")] [Node.text "hi"]]] :=
  ⟨rfl, rfl, by decide⟩

/-! ### Injection toolkit -/

mutual

theorem containsIdN_iff_mem (i : String) :
    ∀ n : Node, containsIdN i n = true ↔ i ∈ allIdsN n
  | .text s => by simp [containsIdN, allIdsN]
  | .elem t a c => by
      cases h : getAttrL a "id" with
      | none => simp [containsIdN, allIdsN, h, containsIdF_iff_mem i c]
      | some v =>
          simp only [containsIdN, allIdsN, h, Bool.or_eq_true, beq_iff_eq,
            containsIdF_iff_mem i c, List.singleton_append, List.mem_cons]
          rw [eq_comm]
          simp [Option.some.injEq]

theorem containsIdF_iff_mem (i : String) :
    ∀ ns : List Node, containsIdF i ns = true ↔ i ∈ allIdsF ns
  | [] => by simp [containsIdF, allIdsF]
  | n :: rest => by
      simp [containsIdF, allIdsF, containsIdN_iff_mem i n, containsIdF_iff_mem i rest]

end

theorem nodeHasId_false_of_not_contains {i : String} {n : Node}
    (h : containsIdN i n = false) : nodeHasId i n = false := by
  cases n with
  | text s => rfl
  | elem t a c =>
      simp only [containsIdN, Bool.or_eq_false_iff] at h
      simpa [nodeHasId] using h.1

mutual

theorem insertRelN_not_found (b : Bool) (i : String) (x : Node) :
    ∀ n : Node, containsIdN i n = false → insertRelN b i x n = (n, false)
  | .text s, _ => by simp [insertRelN]
  | .elem t a c, h => by
      have hc : containsIdF i c = false := by
        simp only [containsIdN, Bool.or_eq_false_iff] at h
        exact h.2
      simp [insertRelN, insertRelF_not_found b i x c hc]

theorem insertRelF_not_found (b : Bool) (i : String) (x : Node) :
    ∀ ns : List Node, containsIdF i ns = false → insertRelF b i x ns = (ns, false)
  | [], _ => by simp [insertRelF]
  | n :: rest, h => by
      have h1 : containsIdN i n = false ∧ containsIdF i rest = false := by
        simpa [containsIdF, Bool.or_eq_false_iff] using h
      have hn := nodeHasId_false_of_not_contains h1.1
      simp [insertRelF, hn, insertRelN_not_found b i x n h1.1,
        insertRelF_not_found b i x rest h1.2]

end

theorem insertRelF_append_skip (b : Bool) (i : String) (x : Node) (xs ys : List Node)
    (h : containsIdF i xs = false) :
    insertRelF b i x (xs ++ ys) = (xs ++ (insertRelF b i x ys).1, (insertRelF b i x ys).2) := by
  induction xs with
  | nil => simp
  | cons n rest ih =>
      have h1 : containsIdN i n = false ∧ containsIdF i rest = false := by
        simpa [containsIdF, Bool.or_eq_false_iff] using h
      have hn := nodeHasId_false_of_not_contains h1.1
      simp [insertRelF, hn, insertRelN_not_found b i x n h1.1, ih h1.2]

theorem insertRelF_at_anchor (b : Bool) (i : String) (x : Node) (n : Node) (rest : List Node)
    (hn : nodeHasId i n = true) :
    insertRelF b i x (n :: rest) = (if b then x :: n :: rest else n :: x :: rest, true) := by
  simp [insertRelF, hn]

theorem containsIdF_append (i : String) (xs ys : List Node) :
    containsIdF i (xs ++ ys) = (containsIdF i xs || containsIdF i ys) := by
  induction xs with
  | nil => simp [containsIdF]
  | cons n rest ih => simp [containsIdF, ih, Bool.or_assoc]

/-! ### C6: skip on missing anchor -/

/-- C6: the injector resolves the primary anchor from `paragraph_id`
first, falling back to `section_id` (second conjunct: when the
`paragraph_id` search fails the slot behaves exactly as if only
`section_id` had been given); a slot for which neither identifier
resolves produces no change to the document and raises no error — the
remaining batch is still processed (first conjunct). -/
theorem slot_skip_on_missing_anchor (doc : List Node) (slot : Slot) (rest : List Slot) :
    ((∀ i, slot.paragraph_id = some i → containsId i doc = false) →
     (∀ i, slot.section_id = some i → containsId i doc = false) →
     inject_images_into_html doc (slot :: rest) = inject_images_into_html doc rest)
    ∧ (∀ i, slot.paragraph_id = some i → containsId i doc = false →
        injectSlot doc slot = injectSlot doc { slot with paragraph_id := none }) := by
  constructor
  · intro hp hs
    have hres : resolveAnchorId doc slot = none := by
      unfold resolveAnchorId
      cases hpid : slot.paragraph_id with
      | none =>
          cases hsid : slot.section_id with
          | none => simp
          | some sid => simp [hs sid hsid]
      | some pid =>
          cases hsid : slot.section_id with
          | none => simp [hp pid hpid]
          | some sid => simp [hp pid hpid, hs sid hsid]
    have hstep : injectSlot doc slot = doc := by
      unfold injectSlot
      cases hurl : slot.image_url with
      | none => rfl
      | some url =>
          by_cases hu : url = ""
          · simp [hu]
          · simp [hu, hres]
    simp [inject_images_into_html, List.foldl, hstep]
  · intro i hpid hci
    have hres : resolveAnchorId doc slot =
        resolveAnchorId doc { slot with paragraph_id := none } := by
      unfold resolveAnchorId
      simp [hpid, hci]
    unfold injectSlot
    rw [hres]
    rfl

/-! ### C7: placement semantics -/

/-- C7: a slot whose position is absent (conjunct 1) or unrecognized
(conjunct 2) defaults to `after`, inserting the fragment immediately
following the primary anchor; `after_heading`/`before_heading`
(conjuncts 3-4) re-resolve the insertion target to the section's
heading/anchor element — ignoring `paragraph_id` for positioning — and
insert after/before that element; when the section anchor cannot be
found (or `section_id` is falsy) they degrade gracefully to the primary
anchor (conjuncts 5-6). -/
theorem position_semantics (doc : List Node) (slot : Slot) :
    (∀ url aid, slot.position = none → slot.image_url = some url → url ≠ "" →
        resolveAnchorId doc slot = some aid →
        injectSlot doc slot = (insertRelF false aid (buildFigure slot url) doc).1)
    ∧ (∀ p, slot.position = some p → p ≠ "before" → p ≠ "before_heading" →
        p ≠ "after_heading" →
        injectSlot doc slot = injectSlot doc { slot with position := some "after" })
    ∧ (∀ sid url aid, slot.position = some "after_heading" → slot.section_id = some sid →
        sid ≠ "" → containsId sid doc = true → slot.image_url = some url → url ≠ "" →
        resolveAnchorId doc slot = some aid →
        injectSlot doc slot = (insertRelF false sid (buildFigure slot url) doc).1)
    ∧ (∀ sid url aid, slot.position = some "before_heading" → slot.section_id = some sid →
        sid ≠ "" → containsId sid doc = true → slot.image_url = some url → url ≠ "" →
        resolveAnchorId doc slot = some aid →
        injectSlot doc slot = (insertRelF true sid (buildFigure slot url) doc).1)
    ∧ (∀ url aid, slot.position = some "after_heading" →
        (slot.section_id = none ∨ slot.section_id = some "" ∨
          ∃ sid, slot.section_id = some sid ∧ containsId sid doc = false) →
        slot.image_url = some url → url ≠ "" → resolveAnchorId doc slot = some aid →
        injectSlot doc slot = (insertRelF false aid (buildFigure slot url) doc).1)
    ∧ (∀ url aid, slot.position = some "before_heading" →
        (slot.section_id = none ∨ slot.section_id = some "" ∨
          ∃ sid, slot.section_id = some sid ∧ containsId sid doc = false) →
        slot.image_url = some url → url ≠ "" → resolveAnchorId doc slot = some aid →
        injectSlot doc slot = (insertRelF true aid (buildFigure slot url) doc).1) := by
  refine ⟨?_, ?_, ?_, ?_, ?_, ?_⟩
  · intro url aid hpos hurl hu hres
    simp [injectSlot, hurl, hu, hres, placeFragment, hpos]
  · intro p hpos hp1 hp2 hp3
    have key : ∀ aid frag, placeFragment doc { slot with position := some "after" } aid frag =
        placeFragment doc slot aid frag := by
      intro aid frag
      unfold placeFragment
      simp [hpos, hp1, hp2, hp3]
    have hb : ∀ url, buildFigure { slot with position := some "after" } url =
        buildFigure slot url := fun _ => rfl
    unfold injectSlot
    rw [show ({ slot with position := some "after" } : Slot).image_url = slot.image_url from rfl,
      show resolveAnchorId doc { slot with position := some "after" } =
        resolveAnchorId doc slot from rfl]
    simp only [key, hb]
  · intro sid url aid hpos hsid hse hc hurl hu hres
    simp [injectSlot, hurl, hu, hres, placeFragment, hpos, hsid, hse, hc]
  · intro sid url aid hpos hsid hse hc hurl hu hres
    simp [injectSlot, hurl, hu, hres, placeFragment, hpos, hsid, hse, hc]
  · intro url aid hpos hbad hurl hu hres
    rcases hbad with h | h | ⟨sid, hsid, hc⟩
    · simp [injectSlot, hurl, hu, hres, placeFragment, hpos, h]
    · simp [injectSlot, hurl, hu, hres, placeFragment, hpos, h]
    · simp [injectSlot, hurl, hu, hres, placeFragment, hpos, hsid, hc]
  · intro url aid hpos hbad hurl hu hres
    rcases hbad with h | h | ⟨sid, hsid, hc⟩
    · simp [injectSlot, hurl, hu, hres, placeFragment, hpos, h]
    · simp [injectSlot, hurl, hu, hres, placeFragment, hpos, h]
    · simp [injectSlot, hurl, hu, hres, placeFragment, hpos, hsid, hc]

/-- C7 (witness): instantiations of every conjunct of
`position_semantics` at concrete documents and slots. -/
theorem position_semantics_witness :
    (injectSlot [Node.elem "p" [("id", "p_1")] []]
        { paragraph_id := some "p_1", image_url := some "u" } =
      (insertRelF false "p_1"
        (buildFigure { paragraph_id := some "p_1", image_url := some "u" } "u")
        [Node.elem "p" [("id", "p_1")] []]).1)
    ∧ (injectSlot [Node.elem "p" [("id", "p_1")] []]
        { paragraph_id := some "p_1", position := some "weird", image_url := some "u" } =
      injectSlot [Node.elem "p" [("id", "p_1")] []]
        { paragraph_id := some "p_1", position := some "after", image_url := some "u" })
    ∧ (injectSlot [Node.elem "h2" [("id", "sec_1")] [], Node.elem "p" [("id", "p_1")] []]
        { section_id := some "sec_1", paragraph_id := some "p_1", position := some "after_heading", image_url := some "u" } =
      (insertRelF false "sec_1"
        (buildFigure { section_id := some "sec_1", paragraph_id := some "p_1", position := some "after_heading", image_url := some "u" } "u")
        [Node.elem "h2" [("id", "sec_1")] [], Node.elem "p" [("id", "p_1")] []]).1)
    ∧ (injectSlot [Node.elem "h2" [("id", "sec_1")] [], Node.elem "p" [("id", "p_1")] []]
        { section_id := some "sec_1", paragraph_id := some "p_1", position := some "before_heading", image_url := some "u" } =
      (insertRelF true "sec_1"
        (buildFigure { section_id := some "sec_1", paragraph_id := some "p_1", position := some "before_heading", image_url := some "u" } "u")
        [Node.elem "h2" [("id", "sec_1")] [], Node.elem "p" [("id", "p_1")] []]).1)
    ∧ (injectSlot [Node.elem "p" [("id", "p_1")] []]
        { section_id := some "gone", paragraph_id := some "p_1", position := some "after_heading", image_url := some "u" } =
      (insertRelF false "p_1"
        (buildFigure { section_id := some "gone", paragraph_id := some "p_1", position := some "after_heading", image_url := some "u" } "u")
        [Node.elem "p" [("id", "p_1")] []]).1)
    ∧ (injectSlot [Node.elem "p" [("id", "p_1")] []]
        { section_id := some "gone", paragraph_id := some "p_1", position := some "before_heading", image_url := some "u" } =
      (insertRelF true "p_1"
        (buildFigure { section_id := some "gone", paragraph_id := some "p_1", position := some "before_heading", image_url := some "u" } "u")
        [Node.elem "p" [("id", "p_1")] []]).1) := by
  refine ⟨?_, ?_, ?_, ?_, ?_, ?_⟩
  · exact (position_semantics _ _).1 "u" "p_1" rfl rfl (by decide) (by decide)
  · exact (position_semantics _ _).2.1 "weird" rfl (by decide) (by decide) (by decide)
  · exact (position_semantics _ _).2.2.1 "sec_1" "u" "p_1" rfl rfl (by decide) (by decide)
      rfl (by decide) (by decide)
  · exact (position_semantics _ _).2.2.2.1 "sec_1" "u" "p_1" rfl rfl (by decide) (by decide)
      rfl (by decide) (by decide)
  · exact (position_semantics _ _).2.2.2.2.1 "u" "p_1" rfl
      (Or.inr (Or.inr ⟨"gone", rfl, by decide⟩)) rfl (by decide) (by decide)
  · exact (position_semantics _ _).2.2.2.2.2 "u" "p_1" rfl
      (Or.inr (Or.inr ⟨"gone", rfl, by decide⟩)) rfl (by decide) (by decide)

/-- C6 (witness): instantiation of `slot_skip_on_missing_anchor` at a
document in which neither id resolves. -/
theorem slot_skip_on_missing_anchor_witness :
    inject_images_into_html [Node.elem "p" [("id", "p_1")] []]
        [{ paragraph_id := some "zz", section_id := some "yy", image_url := some "u" }] =
      inject_images_into_html [Node.elem "p" [("id", "p_1")] []] []
    ∧ injectSlot [Node.elem "p" [("id", "p_1")] []]
        { paragraph_id := some "zz", section_id := some "yy", image_url := some "u" } =
      injectSlot [Node.elem "p" [("id", "p_1")] []]
        { paragraph_id := none, section_id := some "yy", image_url := some "u" } := by
  constructor
  · exact (slot_skip_on_missing_anchor _ _ _).1
      (by intro i h; cases h; decide) (by intro i h; cases h; decide)
  · exact (slot_skip_on_missing_anchor
      [Node.elem "p" [("id", "p_1")] []]
      { paragraph_id := some "zz", section_id := some "yy", image_url := some "u" } []).2
      "zz" rfl (by decide)

/-! ### C5: widget payloads (spec-modelled injector) -/

/-- C5: a slot carrying a widget payload is inserted by the
(spec-modelled) injector at its resolved anchor as the literal
pre-rendered HTML fragment, wrapped in a `<div class="mm-slot">` marker
element identifying it as system-inserted. -/
theorem widget_slot_literal_wrapped (doc : List Node) (slot : Slot) (w aid : String)
    (hw : slot.widget_html = some w) (hpos : slot.position = none)
    (hres : resolveAnchorId doc slot = some aid) :
    inject_slots_into_html doc [slot] =
      (insertRelF false aid (Node.elem "div" [("class", "mm-slot")] [Node.text w]) doc).1 := by
  simp [inject_slots_into_html, injectSlot2, hw, hres, placeFragment, hpos, widgetWrapper]

/-- C5 (witness): a concrete widget slot inserted after a resolvable
anchor. -/
theorem widget_slot_literal_wrapped_witness :
    inject_slots_into_html [Node.elem "p" [("id", "p_1")] []]
        [{ paragraph_id := some "p_1", widget_html := some "<b>W</b>" }] =
      (insertRelF false "p_1" (Node.elem "div" [("class", "mm-slot")] [Node.text "<b>W</b>"])
        [Node.elem "p" [("id", "p_1")] []]).1 :=
  widget_slot_literal_wrapped _ _ "<b>W</b>" "p_1" rfl rfl (by decide)

/-! ### C3: ordering of repeated insertions at one anchor -/

/-- C3 (counterexample): two slots `[A, B]` both targeting `after` the
same anchor do not appear in batch order: the final document shows B's
figure immediately after the anchor and A's figure after B's — the
reverse of the claimed order. -/
theorem batch_order_not_preserved :
    inject_images_into_html [Node.elem "p" [("id", "p_1")] []]
      [{ paragraph_id := some "p_1", position := some "after", image_url := some "a.png" },
       { paragraph_id := some "p_1", position := some "after", image_url := some "b.png" }] =
      [Node.elem "p" [("id", "p_1")] [],
       Node.elem "figure" [("class", "mm-slot")]
         [Node.elem "img" [("src", "b.png"), ("alt", "")] [],
          Node.elem "figcaption" [] [Node.text ""]],
       Node.elem "figure" [("class", "mm-slot")]
         [Node.elem "img" [("src", "a.png"), ("alt", "")] [],
          Node.elem "figcaption" [] [Node.text ""]]]
    ∧ (Node.elem "figure" [("class", "mm-slot")]
         [Node.elem "img" [("src", "a.png"), ("alt", "")] [],
          Node.elem "figcaption" [] [Node.text ""]]) ≠
      (Node.elem "figure" [("class", "mm-slot")]
         [Node.elem "img" [("src", "b.png"), ("alt", "")] [],
          Node.elem "figcaption" [] [Node.text ""]]) :=
  ⟨rfl, by decide⟩

/-- C3 (amended): for two slots `[A, B]` both targeting `after` the same
resolvable anchor, each insertion lands immediately after the anchor, so
the batch comes out reversed: the final document shows B's fragment
immediately after the anchor and A's fragment immediately after B's. -/
theorem after_insertions_stack_reversed
    (pre post c : List Node) (ta : String) (attrs : List (String × String))
    (i uA uB : String) (sA sB : Slot)
    (hanchor : getAttrL attrs "id" = some i)
    (hpre : containsIdF i pre = false)
    (hA : sA.paragraph_id = some i) (hA2 : sA.position = some "after")
    (hA3 : sA.image_url = some uA) (hA4 : uA ≠ "")
    (hB : sB.paragraph_id = some i) (hB2 : sB.position = some "after")
    (hB3 : sB.image_url = some uB) (hB4 : uB ≠ "") :
    inject_images_into_html (pre ++ Node.elem ta attrs c :: post) [sA, sB] =
      pre ++ Node.elem ta attrs c :: buildFigure sB uB :: buildFigure sA uA :: post := by
  have hanchorN : nodeHasId i (Node.elem ta attrs c) = true := by
    simp [nodeHasId, hanchor]
  have hcont1 : containsId i (pre ++ Node.elem ta attrs c :: post) = true := by
    simp [containsId, containsIdF_append, containsIdF, containsIdN, hanchor]
  have hresA : resolveAnchorId (pre ++ Node.elem ta attrs c :: post) sA = some i := by
    unfold resolveAnchorId
    simp [hA, hcont1]
  have step1 : injectSlot (pre ++ Node.elem ta attrs c :: post) sA =
      pre ++ Node.elem ta attrs c :: buildFigure sA uA :: post := by
    simp only [injectSlot, hA3]
    rw [if_neg hA4, hresA]
    unfold placeFragment
    simp only [hA2, Option.getD_some]
    rw [if_neg (by decide : ¬("after" : String) = "before"),
      if_neg (by decide : ¬("after" : String) = "before_heading"),
      if_neg (by decide : ¬("after" : String) = "after_heading")]
    rw [insertRelF_append_skip false i _ pre _ hpre,
      insertRelF_at_anchor false i _ _ post hanchorN]
    simp
  have hcont2 : containsId i
      (pre ++ Node.elem ta attrs c :: buildFigure sA uA :: post) = true := by
    simp [containsId, containsIdF_append, containsIdF, containsIdN, hanchor]
  have hresB : resolveAnchorId
      (pre ++ Node.elem ta attrs c :: buildFigure sA uA :: post) sB = some i := by
    unfold resolveAnchorId
    simp [hB, hcont2]
  have step2 : injectSlot (pre ++ Node.elem ta attrs c :: buildFigure sA uA :: post) sB =
      pre ++ Node.elem ta attrs c :: buildFigure sB uB :: buildFigure sA uA :: post := by
    simp only [injectSlot, hB3]
    rw [if_neg hB4, hresB]
    unfold placeFragment
    simp only [hB2, Option.getD_some]
    rw [if_neg (by decide : ¬("after" : String) = "before"),
      if_neg (by decide : ¬("after" : String) = "before_heading"),
      if_neg (by decide : ¬("after" : String) = "after_heading")]
    rw [insertRelF_append_skip false i _ pre _ hpre,
      insertRelF_at_anchor false i _ _ _ hanchorN]
    simp
  simp [inject_images_into_html, List.foldl, step1, step2]

/-! ### C4: additivity of injection -/

theorem forestIns_refl (P : Node → Prop) : ∀ ns : List Node, ForestIns P ns ns
  | [] => .nil
  | .text s :: r => .cons_text s (forestIns_refl P r)
  | .elem t a c :: r => .cons_elem t a (forestIns_refl P c) (forestIns_refl P r)

theorem forestIns_trans {P : Node → Prop}
    (hP : ∀ t a c c', P (.elem t a c) → P (.elem t a c'))
    {b c : List Node} (h2 : ForestIns P b c) :
    ∀ {a : List Node}, ForestIns P a b → ForestIns P a c := by
  induction h2 with
  | nil => intro a h1; exact h1
  | cons_text s h2' ih =>
      intro a h1
      cases h1 with
      | cons_text _ h1' => exact .cons_text s (ih h1')
      | ins hp h1' => exact .ins hp (ih h1')
  | cons_elem t al h2c h2r ihc ihr =>
      intro a h1
      cases h1 with
      | cons_elem _ _ h1c h1r => exact .cons_elem t al (ihc h1c) (ihr h1r)
      | ins hp h1' => exact .ins (hP t al _ _ hp) (ihr h1')
  | ins hp h2' ih =>
      intro a h1
      exact .ins hp (ih h1)

theorem isMmFig_children_stable :
    ∀ (t : String) (a : List (String × String)) (c c' : List Node),
      isMmFig (Node.elem t a c) → isMmFig (Node.elem t a c') := by
  intro t a c c' h
  obtain ⟨c0, h⟩ := h
  cases h
  exact ⟨c', rfl⟩

theorem insertRelF_forestIns (P : Node → Prop) (b : Bool) (i : String) (x : Node) (hx : P x) :
    ∀ ns : List Node, ForestIns P ns (insertRelF b i x ns).1
  | [] => by
      simpa [insertRelF] using ForestIns.nil (P := P)
  | n :: rest => by
      by_cases hn : nodeHasId i n = true
      · rw [insertRelF_at_anchor b i x n rest hn]
        cases b with
        | true => simpa using ForestIns.ins hx (forestIns_refl P (n :: rest))
        | false =>
            simp only [if_neg (by simp : ¬(false = true))]
            cases n with
            | text s => exact .cons_text s (.ins hx (forestIns_refl P rest))
            | elem t a c => exact .cons_elem t a (forestIns_refl P c) (.ins hx (forestIns_refl P rest))
      · cases n with
        | text s =>
            have heq : insertRelF b i x (Node.text s :: rest) =
                (Node.text s :: (insertRelF b i x rest).1, (insertRelF b i x rest).2) := by
              simp [insertRelF, hn, insertRelN]
            rw [heq]
            exact .cons_text s (insertRelF_forestIns P b i x hx rest)
        | elem t a c =>
            by_cases hf : (insertRelF b i x c).2 = true
            · have heq : insertRelF b i x (Node.elem t a c :: rest) =
                  (Node.elem t a (insertRelF b i x c).1 :: rest, true) := by
                simp [insertRelF, hn, insertRelN, hf]
              rw [heq]
              exact .cons_elem t a (insertRelF_forestIns P b i x hx c) (forestIns_refl P rest)
            · have heq : insertRelF b i x (Node.elem t a c :: rest) =
                  (Node.elem t a c :: (insertRelF b i x rest).1,
                   (insertRelF b i x rest).2) := by
                simp [insertRelF, hn, insertRelN, hf]
              rw [heq]
              exact .cons_elem t a (forestIns_refl P c) (insertRelF_forestIns P b i x hx rest)

theorem injectSlot_forestIns (doc : List Node) (slot : Slot) :
    ForestIns isMmFig doc (injectSlot doc slot) := by
  unfold injectSlot
  cases hurl : slot.image_url with
  | none => exact forestIns_refl _ _
  | some url =>
      by_cases hu : url = ""
      · simp only [if_pos hu]
        exact forestIns_refl _ _
      · simp only [if_neg hu]
        cases hres : resolveAnchorId doc slot with
        | none => exact forestIns_refl _ _
        | some aid =>
            unfold placeFragment
            have hfig : isMmFig (buildFigure slot url) := ⟨_, rfl⟩
            dsimp only
            split
            · exact insertRelF_forestIns _ _ _ _ hfig doc
            · split
              · exact insertRelF_forestIns _ _ _ _ hfig doc
              · split
                · exact insertRelF_forestIns _ _ _ _ hfig doc
                · exact insertRelF_forestIns _ _ _ _ hfig doc

/-- C4: `inject_images_into_html` performs only additive, localized
insertions: the output document is the input document with every
pre-existing node kept, in order and at its depth, with its tag,
attributes and (recursively related) children — nothing is deleted or
reordered — and the only nodes present in the output but not in the
input are inserted `<figure class="mm-slot">` fragments. -/
theorem inject_additive (doc : List Node) (slots : List Slot) :
    ForestIns isMmFig doc (inject_images_into_html doc slots) := by
  induction slots generalizing doc with
  | nil => exact forestIns_refl _ _
  | cons s rest ih =>
      have h1 := injectSlot_forestIns doc s
      have h2 := ih (injectSlot doc s)
      exact forestIns_trans isMmFig_children_stable h2 h1

/-- C3 (amended, witness): concrete two-slot batch at one anchor. -/
theorem after_insertions_stack_reversed_witness :
    inject_images_into_html [Node.elem "p" [("id", "x")] []]
      [{ paragraph_id := some "x", position := some "after", image_url := some "a.png" },
       { paragraph_id := some "x", position := some "after", image_url := some "b.png" }] =
      [] ++ Node.elem "p" [("id", "x")] [] ::
        buildFigure { paragraph_id := some "x", position := some "after", image_url := some "b.png" } "b.png" ::
        buildFigure { paragraph_id := some "x", position := some "after", image_url := some "a.png" } "a.png" :: [] :=
  after_insertions_stack_reversed [] [] [] "p" [("id", "x")] "x" "a.png" "b.png" _ _
    rfl rfl rfl rfl rfl (by decide) rfl rfl rfl (by decide)


/-! ### Extraction pass-2 toolkit (for C1) -/

theorem reuseId_ne_empty (o : Option String) (g : String) (hg : g ≠ "") :
    reuseId o g ≠ "" := by
  cases o with
  | none => exact hg
  | some s =>
      by_cases hs : s = ""
      · simpa [reuseId, hs] using hg
      · simpa [reuseId, hs] using hs

theorem reuseId_reuse (x g : String) (hx : x ≠ "") : reuseId (some x) g = x := by
  simp [reuseId, hx]

theorem getTextF_append (xs ys : List Node) :
    getTextF (xs ++ ys) = getTextF xs ++ getTextF ys := by
  induction xs with
  | nil => simp [getTextF]
  | cons n rest ih =>
      have assoc : (getTextN n ++ getTextF rest) ++ getTextF ys =
          getTextN n ++ (getTextF rest ++ getTextF ys) := by
        apply String.ext
        simp [String.data_append, List.append_assoc]
      simp [getTextF, ih, assoc]

theorem walkN_text_eq (st : ExtState) (s : String) :
    walkN st (.text s) = ([.text s], st) := rfl

theorem walkN_title_eq (st : ExtState) (a : List (String × String)) (c : List Node)
    (hsk : st.skipTitle = true) :
    walkN st (.elem "h1" a c) =
      ([.elem "h1" a (walkF { st with skipTitle := false } c).1],
       (walkF { st with skipTitle := false } c).2) := by
  simp [walkN, hsk, HEADING_TAGS]

theorem walkN_heading_eq (st : ExtState) (t : String) (a : List (String × String))
    (c : List Node) (hh : t ∈ HEADING_TAGS) (hb : ¬(t = "h1" ∧ st.skipTitle = true)) :
    walkN st (.elem t a c) =
      ([.elem t (setAttr a "id" (reuseId (getAttrL a "id") (secName (st.secCtr + 1))))
          (walkF (headState st t a c) c).1],
       (walkF (headState st t a c) c).2) := by
  have hb' : (decide (t = "h1") && st.skipTitle) = false := by
    by_cases ht : t = "h1"
    · cases hsk : st.skipTitle with
      | false => simp [hsk]
      | true => exact absurd ⟨ht, hsk⟩ hb
    · simp [ht]
  simp only [walkN, if_pos hh, hb', Bool.false_eq_true, if_false, headState, headSection]

theorem walkN_para_eq (st : ExtState) (t : String) (a : List (String × String))
    (c : List Node) (hh : t ∉ HEADING_TAGS) (hp : isParagraphLike t a = true)
    (hs : st.sections ≠ []) :
    walkN st (.elem t a c) =
      ([.elem t (setAttr a "id" (paraId st a)) (walkF (paraStateNormal st a c) c).1],
       (walkF (paraStateNormal st a c) c).2) := by
  simp only [walkN, if_neg hh, if_pos hp, paraStateNormal, paraId]
  simp [hs]

theorem walkN_paraIntro_eq (st : ExtState) (t : String) (a : List (String × String))
    (c : List Node) (hh : t ∉ HEADING_TAGS) (hp : isParagraphLike t a = true)
    (hs : st.sections = []) :
    walkN st (.elem t a c) =
      ([.elem "div" [("id", secName (st.secCtr + 1))] [],
        .elem t (setAttr a "id" (paraId st a)) (walkF (paraStateIntro st a c) c).1],
       (walkF (paraStateIntro st a c) c).2) := by
  simp only [walkN, if_neg hh, if_pos hp, paraStateIntro, paraId]
  simp [hs, appendPara]

theorem walkN_other_eq (st : ExtState) (t : String) (a : List (String × String))
    (c : List Node) (hh : t ∉ HEADING_TAGS) (hp : isParagraphLike t a = false) :
    walkN st (.elem t a c) = ([.elem t a (walkF st c).1], (walkF st c).2) := by
  simp only [walkN, if_neg hh, hp, Bool.false_eq_true, if_false]

theorem walkF_cons_eq (st : ExtState) (n : Node) (rest : List Node) :
    walkF st (n :: rest) =
      ((walkN st n).1 ++ (walkF (walkN st n).2 rest).1, (walkF (walkN st n).2 rest).2) := by
  simp [walkF]

theorem walkF_append (st : ExtState) (xs ys : List Node) :
    walkF st (xs ++ ys) =
      ((walkF st xs).1 ++ (walkF (walkF st xs).2 ys).1, (walkF (walkF st xs).2 ys).2) := by
  induction xs generalizing st with
  | nil => simp [walkF]
  | cons n rest ih =>
      rw [List.cons_append, walkF_cons_eq, walkF_cons_eq]
      rw [ih (walkN st n).2]
      simp [List.append_assoc]


theorem div_not_heading : "div" ∉ HEADING_TAGS := by decide

theorem isParagraphLike_div (a : List (String × String)) :
    isParagraphLike "div" a = false := by
  simp [isParagraphLike]

mutual

theorem getTextF_walkN : ∀ (st : ExtState) (n : Node),
    getTextF (walkN st n).1 = getTextN n
  | st, .text s => by simp [walkN_text_eq, getTextF, getTextN]
  | st, .elem t a c => by
      by_cases hh : t ∈ HEADING_TAGS
      · by_cases hb : t = "h1" ∧ st.skipTitle = true
        · obtain ⟨ht, hsk⟩ := hb
          subst ht
          rw [walkN_title_eq st a c hsk]
          simp [getTextF, getTextN, getTextF_walkF _ c]
        · rw [walkN_heading_eq st t a c hh hb]
          simp [getTextF, getTextN, getTextF_walkF _ c]
      · by_cases hp : isParagraphLike t a = true
        · by_cases hs : st.sections = []
          · rw [walkN_paraIntro_eq st t a c hh hp hs]
            simp [getTextF, getTextN, getTextF_walkF _ c]
          · rw [walkN_para_eq st t a c hh hp hs]
            simp [getTextF, getTextN, getTextF_walkF _ c]
        · rw [walkN_other_eq st t a c hh (by simpa using hp)]
          simp [getTextF, getTextN, getTextF_walkF st c]

theorem getTextF_walkF : ∀ (st : ExtState) (ns : List Node),
    getTextF (walkF st ns).1 = getTextF ns
  | st, [] => by simp [walkF]
  | st, n :: rest => by
      rw [walkF_cons_eq]
      show getTextF ((walkN st n).1 ++ (walkF (walkN st n).2 rest).1) = _
      rw [getTextF_append, getTextF_walkN st n, getTextF_walkF (walkN st n).2 rest]
      simp [getTextF]

end

theorem firstH1TextF_append (xs ys : List Node) :
    firstH1TextF (xs ++ ys) =
      (match firstH1TextF xs with
       | some s => some s
       | none => firstH1TextF ys) := by
  induction xs with
  | nil => simp [firstH1TextF]
  | cons n rest ih =>
      simp only [List.cons_append, firstH1TextF]
      cases h : firstH1TextN n with
      | some s => simp
      | none => simp [ih]

mutual

theorem firstH1TextF_walkN : ∀ (st : ExtState) (n : Node),
    firstH1TextF (walkN st n).1 = firstH1TextF [n]
  | st, .text s => by simp [walkN_text_eq]
  | st, .elem t a c => by
      by_cases hh : t ∈ HEADING_TAGS
      · by_cases hb : t = "h1" ∧ st.skipTitle = true
        · obtain ⟨ht, hsk⟩ := hb
          subst ht
          rw [walkN_title_eq st a c hsk]
          simp [firstH1TextF, firstH1TextN, getTextF_walkF]
        · rw [walkN_heading_eq st t a c hh hb]
          by_cases ht : t = "h1"
          · subst ht
            simp [firstH1TextF, firstH1TextN, getTextF_walkF]
          · simp [firstH1TextF, firstH1TextN, ht, firstH1TextF_walkF _ c]
      · have ht : t ≠ "h1" := fun hc => hh (by simp [hc, HEADING_TAGS])
        by_cases hp : isParagraphLike t a = true
        · by_cases hs : st.sections = []
          · rw [walkN_paraIntro_eq st t a c hh hp hs]
            simp [firstH1TextF, firstH1TextN, ht, firstH1TextF_walkF _ c]
          · rw [walkN_para_eq st t a c hh hp hs]
            simp [firstH1TextF, firstH1TextN, ht, firstH1TextF_walkF _ c]
        · rw [walkN_other_eq st t a c hh (by simpa using hp)]
          simp [firstH1TextF, firstH1TextN, ht, firstH1TextF_walkF st c]

theorem firstH1TextF_walkF : ∀ (st : ExtState) (ns : List Node),
    firstH1TextF (walkF st ns).1 = firstH1TextF ns
  | st, [] => by simp [walkF]
  | st, n :: rest => by
      rw [walkF_cons_eq]
      show firstH1TextF ((walkN st n).1 ++ (walkF (walkN st n).2 rest).1) = _
      rw [firstH1TextF_append, firstH1TextF_walkN st n,
        firstH1TextF_walkF (walkN st n).2 rest]
      simp only [firstH1TextF]
      cases h : firstH1TextN n <;> simp

end


theorem headState_pass2 (st : ExtState) (t : String) (a : List (String × String))
    (c : List Node) :
    headState st t (setAttr a "id" (reuseId (getAttrL a "id") (secName (st.secCtr + 1))))
        ((walkF (headState st t a c) c).1) = headState st t a c := by
  unfold headState headSection
  rw [getAttr_setAttr_self,
    reuseId_reuse _ _ (reuseId_ne_empty _ _ (secName_ne_empty _)), getTextF_walkF]

theorem paraId_pass2 (st : ExtState) (a : List (String × String)) :
    paraId st (setAttr a "id" (paraId st a)) = paraId st a := by
  unfold paraId
  rw [getAttr_setAttr_self, reuseId_reuse _ _ (reuseId_ne_empty _ _ (parName_ne_empty _))]

theorem paraStateNormal_pass2 (st : ExtState) (a : List (String × String))
    (c : List Node) :
    paraStateNormal st (setAttr a "id" (paraId st a))
        ((walkF (paraStateNormal st a c) c).1) = paraStateNormal st a c := by
  unfold paraStateNormal
  rw [paraId_pass2, getTextF_walkF]

theorem paraStateIntro_pass2 (st : ExtState) (a : List (String × String))
    (c : List Node) :
    paraStateIntro st (setAttr a "id" (paraId st a))
        ((walkF (paraStateIntro st a c) c).1) = paraStateIntro st a c := by
  unfold paraStateIntro
  rw [paraId_pass2, getTextF_walkF]

theorem walkF_cons_snd (st : ExtState) (n : Node) (rest : List Node) :
    (walkF st (n :: rest)).2 = (walkF (walkN st n).2 rest).2 := by
  rw [walkF_cons_eq]

theorem walkF_append_snd (st : ExtState) (xs ys : List Node) :
    (walkF st (xs ++ ys)).2 = (walkF (walkF st xs).2 ys).2 := by
  rw [walkF_append]

mutual

theorem walkN_idem : ∀ (st : ExtState) (n : Node),
    (walkF st (walkN st n).1).2 = (walkN st n).2
  | st, .text s => by
      rw [walkN_text_eq, walkF_cons_snd, walkN_text_eq]
      rfl
  | st, .elem t a c => by
      by_cases hh : t ∈ HEADING_TAGS
      · by_cases hb : t = "h1" ∧ st.skipTitle = true
        · obtain ⟨ht, hsk⟩ := hb
          subst ht
          rw [walkN_title_eq st a c hsk, walkF_cons_snd, walkN_title_eq st a _ hsk]
          exact walkF_idem { st with skipTitle := false } c
        · rw [walkN_heading_eq st t a c hh hb, walkF_cons_snd,
            walkN_heading_eq st t _ _ hh hb, headState_pass2 st t a c]
          exact walkF_idem (headState st t a c) c
      · by_cases hp : isParagraphLike t a = true
        · by_cases hs : st.sections = []
          · rw [walkN_paraIntro_eq st t a c hh hp hs, walkF_cons_snd,
              walkN_other_eq st "div" _ _ div_not_heading (isParagraphLike_div _)]
            simp only [walkF]
            rw [walkN_paraIntro_eq st t _ _ hh (by rw [isParagraphLike_setAttr_id]; exact hp) hs,
              paraStateIntro_pass2 st a c]
            exact walkF_idem (paraStateIntro st a c) c
          · rw [walkN_para_eq st t a c hh hp hs, walkF_cons_snd,
              walkN_para_eq st t _ _ hh (by rw [isParagraphLike_setAttr_id]; exact hp) hs,
              paraStateNormal_pass2 st a c]
            exact walkF_idem (paraStateNormal st a c) c
        · have hp' : isParagraphLike t a = false := by simpa using hp
          rw [walkN_other_eq st t a c hh hp', walkF_cons_snd,
            walkN_other_eq st t a _ hh hp']
          exact walkF_idem st c

theorem walkF_idem : ∀ (st : ExtState) (ns : List Node),
    (walkF st (walkF st ns).1).2 = (walkF st ns).2
  | st, [] => by simp [walkF]
  | st, n :: rest => by
      rw [walkF_cons_eq]
      simp only []
      rw [walkF_append_snd, walkN_idem st n]
      exact walkF_idem (walkN st n).2 rest

end


theorem isArticleSchema_children (t : String) (a : List (String × String))
    (c' c : List Node) :
    isArticleSchema (.elem t a c') = isArticleSchema (.elem t a c) := by
  simp [isArticleSchema]

theorem isArticleSchema_setAttr_id (t : String) (a : List (String × String))
    (v : String) (c c' : List Node) :
    isArticleSchema (.elem t (setAttr a "id" v) c') = isArticleSchema (.elem t a c) := by
  simp [isArticleSchema, getAttr_setAttr_ne a "id" v "itemtype" (by decide)]

mutual

theorem schema_walkN : ∀ (st : ExtState) (n : Node),
    anyNodeN isArticleSchema n = false →
    anyNodeF isArticleSchema (walkN st n).1 = false
  | st, .text s => by
      intro h
      rw [walkN_text_eq]
      simpa [anyNodeF] using h
  | st, .elem t a c => by
      intro h
      simp only [anyNodeN, Bool.or_eq_false_iff] at h
      obtain ⟨h1, h2⟩ := h
      have h1' : ∀ c' : List Node, isArticleSchema (Node.elem t a c') = false := by
        intro c'
        rw [isArticleSchema_children t a c' c]
        exact h1
      have hsa : ∀ (v : String) (c' : List Node),
          isArticleSchema (Node.elem t (setAttr a "id" v) c') = false := by
        intro v c'
        rw [isArticleSchema_setAttr_id t a v c c']
        exact h1
      by_cases hh : t ∈ HEADING_TAGS
      · by_cases hb : t = "h1" ∧ st.skipTitle = true
        · obtain ⟨ht, hsk⟩ := hb
          subst ht
          rw [walkN_title_eq st a c hsk]
          simp [anyNodeF, anyNodeN, h1', schema_walkF _ c h2]
        · rw [walkN_heading_eq st t a c hh hb]
          simp [anyNodeF, anyNodeN, hsa, schema_walkF _ c h2]
      · by_cases hp : isParagraphLike t a = true
        · by_cases hs : st.sections = []
          · rw [walkN_paraIntro_eq st t a c hh hp hs]
            have hdiv : ∀ x : String, isArticleSchema (Node.elem "div" [("id", x)] []) = false := by
              intro x
              simp [isArticleSchema]
            simp [anyNodeF, anyNodeN, hsa, hdiv, schema_walkF _ c h2]
          · rw [walkN_para_eq st t a c hh hp hs]
            simp [anyNodeF, anyNodeN, hsa, schema_walkF _ c h2]
        · rw [walkN_other_eq st t a c hh (by simpa using hp)]
          simp [anyNodeF, anyNodeN, h1', schema_walkF st c h2]

theorem schema_walkF : ∀ (st : ExtState) (ns : List Node),
    anyNodeF isArticleSchema ns = false →
    anyNodeF isArticleSchema (walkF st ns).1 = false
  | st, [] => by intro h; simpa [walkF] using h
  | st, n :: rest => by
      intro h
      simp only [anyNodeF, Bool.or_eq_false_iff] at h
      obtain ⟨h1, h2⟩ := h
      rw [walkF_cons_eq]
      show anyNodeF isArticleSchema ((walkN st n).1 ++ (walkF (walkN st n).2 rest).1) = false
      have happ : ∀ xs ys, anyNodeF isArticleSchema (xs ++ ys) =
          (anyNodeF isArticleSchema xs || anyNodeF isArticleSchema ys) := by
        intro xs ys
        induction xs with
        | nil => simp [anyNodeF]
        | cons m r ih => simp [anyNodeF, ih, Bool.or_assoc]
      rw [happ]
      simp [schema_walkN st n h1, schema_walkF (walkN st n).2 rest h2]

end

theorem schema_processArticle : ∀ n : Node,
    anyNodeN isArticleSchema n = false →
    anyNodeN isArticleSchema (processArticle n).1 = false := by
  intro n h
  cases n with
  | text s => simpa [processArticle] using h
  | elem t a c =>
      simp only [anyNodeN, Bool.or_eq_false_iff] at h
      obtain ⟨h1, h2⟩ := h
      simp only [processArticle]
      have h1' : ∀ c' : List Node, isArticleSchema (Node.elem t a c') = false := by
        intro c'
        rw [isArticleSchema_children t a c' c]
        exact h1
      simp [anyNodeN, h1', schema_walkF initState c h2]

theorem isArticleSchema_processArticle (n : Node) :
    isArticleSchema (processArticle n).1 = isArticleSchema n := by
  cases n <;> simp [processArticle, isArticleSchema]

theorem isArticleTag_processArticle (n : Node) :
    isArticleTag (processArticle n).1 = isArticleTag n := by
  cases n <;> simp [processArticle, isArticleTag]

/-- One extraction pass leaves an article view that a second pass over
its own output reproduces verbatim. -/
theorem processArticle_idem (n : Node) :
    (processArticle (processArticle n).1).2 = (processArticle n).2 := by
  cases n with
  | text s => rfl
  | elem t a c =>
      simp only [processArticle]
      rw [firstH1TextF_walkF, walkF_idem]

mutual

theorem mapFirstN_none_of_nomatch {α : Type} (p : Node → Bool) (f : Node → Node × α) :
    ∀ n : Node, anyNodeN p n = false → mapFirstN p f n = none
  | .text s, h => by
      simp only [anyNodeN] at h
      simp [mapFirstN, h]
  | .elem t a c, h => by
      simp only [anyNodeN, Bool.or_eq_false_iff] at h
      obtain ⟨h1, h2⟩ := h
      simp [mapFirstN, h1, mapFirstF_none_of_nomatch p f c h2]

theorem mapFirstF_none_of_nomatch {α : Type} (p : Node → Bool) (f : Node → Node × α) :
    ∀ ns : List Node, anyNodeF p ns = false → mapFirstF p f ns = none
  | [], _ => by simp [mapFirstF]
  | n :: rest, h => by
      simp only [anyNodeF, Bool.or_eq_false_iff] at h
      obtain ⟨h1, h2⟩ := h
      simp [mapFirstF, mapFirstN_none_of_nomatch p f n h1,
        mapFirstF_none_of_nomatch p f rest h2]

end

mutual

theorem nomatch_of_mapFirstN_none {α : Type} (p : Node → Bool) (f : Node → Node × α) :
    ∀ n : Node, mapFirstN p f n = none → anyNodeN p n = false
  | .text s, h => by
      by_cases hp : p (.text s) = true
      · simp [mapFirstN, hp] at h
      · simpa [anyNodeN] using hp
  | .elem t a c, h => by
      by_cases hp : p (.elem t a c) = true
      · simp [mapFirstN, hp] at h
      · simp only [mapFirstN, hp, Bool.false_eq_true, if_false] at h
        have hc : mapFirstF p f c = none := by
          cases hm : mapFirstF p f c with
          | none => rfl
          | some pair => rw [hm] at h; simp at h
        simp [anyNodeN, hp, nomatch_of_mapFirstF_none p f c hc]

theorem nomatch_of_mapFirstF_none {α : Type} (p : Node → Bool) (f : Node → Node × α) :
    ∀ ns : List Node, mapFirstF p f ns = none → anyNodeF p ns = false
  | [], _ => by simp [anyNodeF]
  | n :: rest, h => by
      simp only [mapFirstF] at h
      cases hn : mapFirstN p f n with
      | some pair => rw [hn] at h; simp at h
      | none =>
          rw [hn] at h
          have hr : mapFirstF p f rest = none := by
            cases hm : mapFirstF p f rest with
            | none => rfl
            | some pair => rw [hm] at h; simp at h
          simp [anyNodeF, nomatch_of_mapFirstN_none p f n hn,
            nomatch_of_mapFirstF_none p f rest hr]

end


theorem mapFirstN_of_p_true {α : Type} (p : Node → Bool) (f : Node → Node × α)
    {n : Node} (h : p n = true) : mapFirstN p f n = some (f n) := by
  cases n <;> simp [mapFirstN, h]

mutual

theorem mapFirstN_pres {α : Type} (p : Node → Bool) (f : Node → Node × α)
    (hf : ∀ m, anyNodeN isArticleSchema m = false →
      anyNodeN isArticleSchema (f m).1 = false) :
    ∀ (n n' : Node) (v : α), mapFirstN p f n = some (n', v) →
      anyNodeN isArticleSchema n = false → anyNodeN isArticleSchema n' = false
  | .text s, n', v => by
      intro h hn
      by_cases hps : p (.text s) = true
      · simp only [mapFirstN, hps, if_true] at h
        have h' : f (.text s) = (n', v) := Option.some.inj h
        have hn' : n' = (f (.text s)).1 := by rw [h']
        rw [hn']
        exact hf _ hn
      · simp [mapFirstN, hps] at h
  | .elem t a c, n', v => by
      intro h hn
      by_cases hps : p (.elem t a c) = true
      · simp only [mapFirstN, hps, if_true] at h
        have h' : f (.elem t a c) = (n', v) := Option.some.inj h
        have hn' : n' = (f (.elem t a c)).1 := by rw [h']
        rw [hn']
        exact hf _ hn
      · simp only [mapFirstN, hps, Bool.false_eq_true, if_false] at h
        cases hm : mapFirstF p f c with
        | none => rw [hm] at h; simp at h
        | some pair =>
            obtain ⟨c', v0⟩ := pair
            rw [hm] at h
            simp only [Option.some.injEq, Prod.mk.injEq] at h
            obtain ⟨h1, h2⟩ := h
            subst h1
            simp only [anyNodeN, Bool.or_eq_false_iff] at hn ⊢
            obtain ⟨hn1, hn2⟩ := hn
            constructor
            · rw [isArticleSchema_children t a c' c]
              exact hn1
            · exact mapFirstF_pres p f hf c c' v0 hm hn2

theorem mapFirstF_pres {α : Type} (p : Node → Bool) (f : Node → Node × α)
    (hf : ∀ m, anyNodeN isArticleSchema m = false →
      anyNodeN isArticleSchema (f m).1 = false) :
    ∀ (ns ns' : List Node) (v : α), mapFirstF p f ns = some (ns', v) →
      anyNodeF isArticleSchema ns = false → anyNodeF isArticleSchema ns' = false
  | [], ns', v => by
      intro h _
      simp [mapFirstF] at h
  | n :: rest, ns', v => by
      intro h hn
      simp only [mapFirstF] at h
      simp only [anyNodeF, Bool.or_eq_false_iff] at hn
      obtain ⟨hn1, hn2⟩ := hn
      cases hm : mapFirstN p f n with
      | some pair =>
          obtain ⟨n1, v1⟩ := pair
          rw [hm] at h
          simp only [Option.some.injEq, Prod.mk.injEq] at h
          obtain ⟨h1, h2⟩ := h
          subst h1
          simp only [anyNodeF, Bool.or_eq_false_iff]
          exact ⟨mapFirstN_pres p f hf n n1 v1 hm hn1, hn2⟩
      | none =>
          rw [hm] at h
          cases hr : mapFirstF p f rest with
          | none => rw [hr] at h; simp at h
          | some pair =>
              obtain ⟨rest1, v1⟩ := pair
              rw [hr] at h
              simp only [Option.some.injEq, Prod.mk.injEq] at h
              obtain ⟨h1, h2⟩ := h
              subst h1
              simp only [anyNodeF, Bool.or_eq_false_iff]
              exact ⟨hn1, mapFirstF_pres p f hf rest rest1 v1 hr hn2⟩

end

mutual

theorem mapFirstN_pass2 {α : Type} (p : Node → Bool) (f : Node → Node × α)
    (hp : ∀ n, p (f n).1 = p n)
    (hc : ∀ t a c c', p (.elem t a c') = p (.elem t a c))
    (hidem : ∀ n, (f (f n).1).2 = (f n).2) :
    ∀ (n n' : Node) (v : α), mapFirstN p f n = some (n', v) →
      ∃ n'', mapFirstN p f n' = some (n'', v)
  | .text s, n', v => by
      intro h
      by_cases hps : p (.text s) = true
      · simp only [mapFirstN, hps, if_true] at h
        have h' : f (.text s) = (n', v) := Option.some.inj h
        have hn' : n' = (f (.text s)).1 := by rw [h']
        have hv : v = (f (.text s)).2 := by rw [h']
        subst hn'
        subst hv
        have hpn : p (f (.text s)).1 = true := by rw [hp]; exact hps
        refine ⟨(f (f (.text s)).1).1, ?_⟩
        rw [mapFirstN_of_p_true p f hpn, ← hidem (.text s)]
      · simp [mapFirstN, hps] at h
  | .elem t a c, n', v => by
      intro h
      by_cases hps : p (.elem t a c) = true
      · simp only [mapFirstN, hps, if_true] at h
        have h' : f (.elem t a c) = (n', v) := Option.some.inj h
        have hn' : n' = (f (.elem t a c)).1 := by rw [h']
        have hv : v = (f (.elem t a c)).2 := by rw [h']
        subst hn'
        subst hv
        have hpn : p (f (.elem t a c)).1 = true := by rw [hp]; exact hps
        refine ⟨(f (f (.elem t a c)).1).1, ?_⟩
        rw [mapFirstN_of_p_true p f hpn, ← hidem (.elem t a c)]
      · simp only [mapFirstN, hps, Bool.false_eq_true, if_false] at h
        cases hm : mapFirstF p f c with
        | none => rw [hm] at h; simp at h
        | some pair =>
            obtain ⟨c', v0⟩ := pair
            rw [hm] at h
            simp only [Option.some.injEq, Prod.mk.injEq] at h
            obtain ⟨h1, h2⟩ := h
            subst h1
            subst h2
            have hps' : p (.elem t a c') = false := by
              rw [hc t a c c']
              simpa using hps
            obtain ⟨c'', hc''⟩ := mapFirstF_pass2 p f hp hc hidem c c' v0 hm
            refine ⟨.elem t a c'', ?_⟩
            simp [mapFirstN, hps', hc'']

theorem mapFirstF_pass2 {α : Type} (p : Node → Bool) (f : Node → Node × α)
    (hp : ∀ n, p (f n).1 = p n)
    (hc : ∀ t a c c', p (.elem t a c') = p (.elem t a c))
    (hidem : ∀ n, (f (f n).1).2 = (f n).2) :
    ∀ (ns ns' : List Node) (v : α), mapFirstF p f ns = some (ns', v) →
      ∃ ns'', mapFirstF p f ns' = some (ns'', v)
  | [], ns', v => by
      intro h
      simp [mapFirstF] at h
  | n :: rest, ns', v => by
      intro h
      simp only [mapFirstF] at h
      cases hm : mapFirstN p f n with
      | some pair =>
          obtain ⟨n1, v1⟩ := pair
          rw [hm] at h
          simp only [Option.some.injEq, Prod.mk.injEq] at h
          obtain ⟨h1, h2⟩ := h
          subst h1
          subst h2
          obtain ⟨n2, hn2⟩ := mapFirstN_pass2 p f hp hc hidem n n1 v1 hm
          refine ⟨n2 :: rest, ?_⟩
          simp [mapFirstF, hn2]
      | none =>
          rw [hm] at h
          cases hr : mapFirstF p f rest with
          | none => rw [hr] at h; simp at h
          | some pair =>
              obtain ⟨rest1, v1⟩ := pair
              rw [hr] at h
              simp only [Option.some.injEq, Prod.mk.injEq] at h
              obtain ⟨h1, h2⟩ := h
              subst h1
              subst h2
              obtain ⟨rest2, hr2⟩ := mapFirstF_pass2 p f hp hc hidem rest rest1 v1 hr
              refine ⟨n :: rest2, ?_⟩
              simp [mapFirstF, hm, hr2]

end


/-- C1 (amended): re-running extraction on the mutated HTML of a first
run yields an identical ArticleView — every id assigned on pass 1
(including the synthetic Introduction section's id) is reused, not
renumbered, and all content is reproduced.  (What fails in the original
claim is only the synthetic anchor element: as `extraction_not_fully_idempotent`
shows, pass 2 inserts a fresh duplicate anchor `<div>` with the same id
rather than reusing the pass-1 anchor element.) -/
theorem extraction_view_idempotent (doc d1 : List Node) (v1 : ArticleView)
    (h : html_to_article_view doc = .ok (d1, v1)) :
    ∃ d2, html_to_article_view d1 = .ok (d2, v1) := by
  have hc_schema : ∀ (t : String) (a : List (String × String)) (c c' : List Node),
      isArticleSchema (.elem t a c') = isArticleSchema (.elem t a c) := by
    intro t a c c'
    exact isArticleSchema_children t a c' c
  have hc_tag : ∀ (t : String) (a : List (String × String)) (c c' : List Node),
      isArticleTag (.elem t a c') = isArticleTag (.elem t a c) := by
    intro t a c c'
    simp [isArticleTag]
  unfold html_to_article_view at h ⊢
  cases h1 : mapFirstF isArticleSchema processArticle doc with
  | some pair =>
      obtain ⟨d1', v1'⟩ := pair
      rw [h1] at h
      simp only [Except.ok.injEq, Prod.mk.injEq] at h
      obtain ⟨hd, hv⟩ := h
      subst hd
      subst hv
      obtain ⟨d2, h2⟩ := mapFirstF_pass2 isArticleSchema processArticle
        isArticleSchema_processArticle hc_schema processArticle_idem doc d1' v1' h1
      refine ⟨d2, ?_⟩
      rw [h2]
  | none =>
      rw [h1] at h
      cases h2 : mapFirstF isArticleTag processArticle doc with
      | none =>
          rw [h2] at h
          simp at h
      | some pair =>
          obtain ⟨d1', v1'⟩ := pair
          rw [h2] at h
          simp only [Except.ok.injEq, Prod.mk.injEq] at h
          obtain ⟨hd, hv⟩ := h
          subst hd
          subst hv
          have hno : anyNodeF isArticleSchema doc = false :=
            nomatch_of_mapFirstF_none isArticleSchema processArticle doc h1
          have hno1 : anyNodeF isArticleSchema d1' = false :=
            mapFirstF_pres isArticleTag processArticle schema_processArticle
              doc d1' v1' h2 hno
          rw [mapFirstF_none_of_nomatch isArticleSchema processArticle d1' hno1]
          obtain ⟨d2, h3⟩ := mapFirstF_pass2 isArticleTag processArticle
            isArticleTag_processArticle hc_tag processArticle_idem doc d1' v1' h2
          refine ⟨d2, ?_⟩
          rw [h3]

/-- C1 (amended, witness): second pass over the annotated output of a
first pass on a one-paragraph article reproduces the same view. -/
theorem extraction_view_idempotent_witness :
    ∃ d2, html_to_article_view
        [Node.elem "article" []
          [Node.elem "div" [("id", "sec_1")] [],
           Node.elem "p" [("id", "p_1")] [Node.text "hi"]]] =
      Except.ok (d2,
        { title := "", sections := [⟨"sec_1", 2, "Introduction", [⟨"p_1", "hi"⟩]⟩] }) :=
  extraction_view_idempotent
    [Node.elem "article" [] [Node.elem "p" [] [Node.text "hi"]]] _ _ rfl


/-! ### Anchor uniqueness toolkit (for C2) -/

theorem sectionIds_append (ss ts : List Section) :
    sectionIds (ss ++ ts) = sectionIds ss ++ sectionIds ts := by
  induction ss with
  | nil => simp [sectionIds]
  | cons s rest ih => simp [sectionIds, ih]

theorem sectionIds_appendPara (ss : List Section) (p : Paragraph) (h : ss ≠ []) :
    sectionIds (appendPara ss p) = sectionIds ss ++ [p.id] := by
  induction ss with
  | nil => exact absurd rfl h
  | cons s rest ih =>
      cases rest with
      | nil => simp [appendPara, sectionIds]
      | cons s2 rest2 =>
          simp [appendPara, sectionIds, ih]

theorem inWindow_mono_left {st0 st1 st2 : ExtState} {i : String}
    (h : inWindow st1 st2 i) (hs : st0.secCtr ≤ st1.secCtr)
    (hp : st0.parCtr ≤ st1.parCtr) : inWindow st0 st2 i := by
  rcases h with ⟨k, h1, h2, h3⟩ | ⟨k, h1, h2, h3⟩
  · exact Or.inl ⟨k, by omega, h2, h3⟩
  · exact Or.inr ⟨k, by omega, h2, h3⟩

theorem inWindow_mono_right {st0 st1 st2 : ExtState} {i : String}
    (h : inWindow st0 st1 i) (hs : st1.secCtr ≤ st2.secCtr)
    (hp : st1.parCtr ≤ st2.parCtr) : inWindow st0 st2 i := by
  rcases h with ⟨k, h1, h2, h3⟩ | ⟨k, h1, h2, h3⟩
  · exact Or.inl ⟨k, h1, by omega, h3⟩
  · exact Or.inr ⟨k, h1, by omega, h3⟩

theorem inWindow_disjoint {st0 st1 st2 : ExtState} {i : String}
    (h1 : inWindow st0 st1 i) (h2 : inWindow st1 st2 i) : False := by
  rcases h1 with ⟨k, a1, a2, a3⟩ | ⟨k, a1, a2, a3⟩ <;>
    rcases h2 with ⟨k', b1, b2, b3⟩ | ⟨k', b1, b2, b3⟩
  · subst a3
    have := secName_inj k' k b3.symm
    omega
  · subst a3
    exact secName_ne_parName k k' b3
  · subst a3
    exact secName_ne_parName k' k b3.symm
  · subst a3
    have := parName_inj k' k b3.symm
    omega

theorem inWindow_not_clean {st st' : ExtState} {i : String}
    (hc : cleanIdB i = true) (h : inWindow st st' i) : False := by
  rcases h with ⟨k, _, _, h3⟩ | ⟨k, _, _, h3⟩
  · exact cleanIdB_ne_secName hc k h3
  · exact cleanIdB_ne_parName hc k h3


theorem countId_append (i : String) (xs ys : List String) :
    countId i (xs ++ ys) = countId i xs + countId i ys := by
  induction xs with
  | nil => simp [countId]
  | cons x rest ih => simp [countId, ih]; omega

theorem countId_eq_zero_of_not_mem {i : String} {xs : List String} (h : i ∉ xs) :
    countId i xs = 0 := by
  induction xs with
  | nil => rfl
  | cons x rest ih =>
      simp only [List.mem_cons, not_or] at h
      have hx : ¬x = i := fun hc => h.1 hc.symm
      simp [countId, hx, ih h.2]

theorem countId_singleton_self (i : String) : countId i [i] = 1 := by
  simp [countId]

theorem allIdsF_append (xs ys : List Node) :
    allIdsF (xs ++ ys) = allIdsF xs ++ allIdsF ys := by
  induction xs with
  | nil => simp [allIdsF]
  | cons n rest ih => simp [allIdsF, ih]

theorem allIdsF_single (n : Node) : allIdsF [n] = allIdsN n := by
  simp [allIdsF]

theorem allIdsN_setAttr_id (t : String) (a : List (String × String)) (x : String)
    (c : List Node) :
    allIdsN (.elem t (setAttr a "id" x) c) = x :: allIdsF c := by
  simp [allIdsN, getAttr_setAttr_self]

theorem gen_ne_clean {st0 st1 : ExtState} {g i : String}
    (hg : inWindow st0 st1 g) (hc : cleanIdB i = true) : g ≠ i := by
  intro he
  subst he
  exact inWindow_not_clean hc hg

theorem gen_ne_window {st0 st1 st2 : ExtState} {g i : String}
    (hg : inWindow st0 st1 g) (hi : inWindow st1 st2 i) : g ≠ i := by
  intro he
  subst he
  exact inWindow_disjoint hg hi

theorem sectionIds_headState (st : ExtState) (t : String) (a : List (String × String))
    (c : List Node) :
    sectionIds (headState st t a c).sections =
      sectionIds st.sections ++ [reuseId (getAttrL a "id") (secName (st.secCtr + 1))] := by
  simp [headState, sectionIds_append, sectionIds, headSection]

theorem sectionIds_paraStateNormal (st : ExtState) (a : List (String × String))
    (c : List Node) (h : st.sections ≠ []) :
    sectionIds (paraStateNormal st a c).sections =
      sectionIds st.sections ++ [paraId st a] := by
  simp only [paraStateNormal]
  exact sectionIds_appendPara st.sections _ h

theorem sectionIds_paraStateIntro (st : ExtState) (a : List (String × String))
    (c : List Node) :
    sectionIds (paraStateIntro st a c).sections = [secName (st.secCtr + 1), paraId st a] := by
  simp [paraStateIntro, sectionIds]


theorem assigned_ne {st0 st1 st2 : ExtState} {x i : String} {cIds : List String}
    (hi : i ∈ cIds ∨ inWindow st1 st2 i)
    (hclean_c : ∀ j ∈ cIds, cleanIdB j = true)
    (hx : (cleanIdB x = true ∧ x ∉ cIds) ∨ inWindow st0 st1 x) :
    x ≠ i := by
  intro he
  subst he
  rcases hi with hin | hwin
  · rcases hx with ⟨_, hxn⟩ | hxw
    · exact hxn hin
    · exact inWindow_not_clean (hclean_c x hin) hxw
  · rcases hx with ⟨hxc, _⟩ | hxw
    · exact inWindow_not_clean hxc hwin
    · exact inWindow_disjoint hxw hwin

theorem assigned_ne_clean {st1 st2 : ExtState} {x i : String} {cIds : List String}
    (hi : i ∈ cIds ∨ inWindow st1 st2 i)
    (hclean_c : ∀ j ∈ cIds, cleanIdB j = true)
    (hx : cleanIdB x = true ∧ x ∉ cIds) :
    x ≠ i := by
  intro he
  subst he
  rcases hi with hin | hwin
  · exact hx.2 hin
  · exact inWindow_not_clean hx.1 hwin

theorem headState_secCtr (st : ExtState) (t : String) (a : List (String × String))
    (c : List Node) : (headState st t a c).secCtr = st.secCtr + 1 := rfl

theorem headState_parCtr (st : ExtState) (t : String) (a : List (String × String))
    (c : List Node) : (headState st t a c).parCtr = st.parCtr := rfl

theorem paraStateNormal_secCtr (st : ExtState) (a : List (String × String))
    (c : List Node) : (paraStateNormal st a c).secCtr = st.secCtr := rfl

theorem paraStateNormal_parCtr (st : ExtState) (a : List (String × String))
    (c : List Node) : (paraStateNormal st a c).parCtr = st.parCtr + 1 := rfl

theorem paraStateIntro_secCtr (st : ExtState) (a : List (String × String))
    (c : List Node) : (paraStateIntro st a c).secCtr = st.secCtr + 1 := rfl

theorem paraStateIntro_parCtr (st : ExtState) (a : List (String × String))
    (c : List Node) : (paraStateIntro st a c).parCtr = st.parCtr + 1 := rfl


mutual

theorem walkN_ids : ∀ (st : ExtState) (n : Node),
    (∀ i ∈ allIdsN n, cleanIdB i = true) → (allIdsN n).Nodup →
    ∃ Δ : List String,
      sectionIds (walkN st n).2.sections = sectionIds st.sections ++ Δ
      ∧ (∀ i ∈ Δ, countId i (allIdsF (walkN st n).1) = 1)
      ∧ (∀ i ∈ Δ, i ∈ allIdsN n ∨ inWindow st (walkN st n).2 i)
      ∧ st.secCtr ≤ (walkN st n).2.secCtr
      ∧ st.parCtr ≤ (walkN st n).2.parCtr
      ∧ (∀ i ∈ allIdsF (walkN st n).1, i ∈ allIdsN n ∨ inWindow st (walkN st n).2 i)
  | st, .text s => by
      intro _ _
      rw [walkN_text_eq]
      dsimp only
      refine ⟨[], by simp [sectionIds], by simp, by simp, le_refl _, le_refl _, ?_⟩
      intro i hi
      simp [allIdsF, allIdsN] at hi
  | st, .elem t a c => by
      intro hclean hnodup
      have hclean_c : ∀ i ∈ allIdsF c, cleanIdB i = true := by
        intro i hi
        apply hclean
        simp only [allIdsN]
        cases getAttrL a "id" <;> simp [hi]
      have hnodup_c : (allIdsF c).Nodup := by
        simp only [allIdsN] at hnodup
        cases hid0 : getAttrL a "id" with
        | none => rw [hid0] at hnodup; simpa using hnodup
        | some s =>
            rw [hid0] at hnodup
            simp only [List.singleton_append, List.nodup_cons] at hnodup
            exact hnodup.2
      by_cases hh : t ∈ HEADING_TAGS
      · by_cases hb : t = "h1" ∧ st.skipTitle = true
        · -- title h1: no id assigned, no section opened
          obtain ⟨ht, hsk⟩ := hb
          subst ht
          rw [walkN_title_eq st a c hsk]
          dsimp only
          obtain ⟨Δc, P1, P2, P3, P4a, P4b, P5⟩ :=
            walkF_ids { st with skipTitle := false } c hclean_c hnodup_c
          refine ⟨Δc, P1, ?_, ?_, P4a, P4b, ?_⟩
          · intro i hi
            rw [allIdsF_single]
            simp only [allIdsN]
            cases hid : getAttrL a "id" with
            | none =>
                simp only [List.nil_append]
                exact P2 i hi
            | some s =>
                have hsc : cleanIdB s = true := hclean s (by simp [allIdsN, hid])
                have hs_notin : s ∉ allIdsF c := by
                  simp only [allIdsN, hid, List.singleton_append, List.nodup_cons] at hnodup
                  exact hnodup.1
                have hne : s ≠ i :=
                  assigned_ne_clean (P3 i hi) hclean_c ⟨hsc, hs_notin⟩
                simp only [List.singleton_append, countId, if_neg hne, Nat.zero_add]
                exact P2 i hi
          · intro i hi
            rcases P3 i hi with hin | hw
            · left
              simp only [allIdsN]
              cases getAttrL a "id" <;> simp [hin]
            · right
              exact inWindow_mono_left hw (le_refl _) (le_refl _)
          · intro i hi
            rw [allIdsF_single] at hi
            simp only [allIdsN] at hi
            cases hid : getAttrL a "id" with
            | none =>
                rw [hid] at hi
                simp only [List.nil_append] at hi
                rcases P5 i hi with hin | hw
                · left
                  simp [allIdsN, hid, hin]
                · right
                  exact inWindow_mono_left hw (le_refl _) (le_refl _)
            | some s =>
                rw [hid] at hi
                simp only [List.singleton_append, List.mem_cons] at hi
                rcases hi with rfl | hic
                · left
                  simp [allIdsN, hid]
                · rcases P5 i hic with hin | hw
                  · left
                    simp [allIdsN, hid, hin]
                  · right
                    exact inWindow_mono_left hw (le_refl _) (le_refl _)
        · -- section-opening heading
          rw [walkN_heading_eq st t a c hh hb]
          dsimp only
          obtain ⟨Δc, P1, P2, P3, P4a, P4b, P5⟩ :=
            walkF_ids (headState st t a c) c hclean_c hnodup_c
          rw [headState_secCtr] at P4a
          rw [headState_parCtr] at P4b
          have hXfact : ∀ hid : Option String, getAttrL a "id" = hid →
              (cleanIdB (reuseId (getAttrL a "id") (secName (st.secCtr + 1))) = true ∧
                reuseId (getAttrL a "id") (secName (st.secCtr + 1)) ∉ allIdsF c) ∨
              inWindow st (headState st t a c)
                (reuseId (getAttrL a "id") (secName (st.secCtr + 1))) := by
            intro hid h
            cases hid with
            | some s =>
                have hsc : cleanIdB s = true := hclean s (by simp [allIdsN, h])
                have hs_notin : s ∉ allIdsF c := by
                  simp only [allIdsN, h, List.singleton_append, List.nodup_cons] at hnodup
                  exact hnodup.1
                rw [h, reuseId_reuse _ _ (cleanIdB_ne_empty hsc)]
                exact Or.inl ⟨hsc, hs_notin⟩
            | none =>
                rw [h]
                refine Or.inr (Or.inl ⟨st.secCtr + 1, by omega, ?_, rfl⟩)
                rw [headState_secCtr]
          have hxf := hXfact (getAttrL a "id") rfl
          refine ⟨reuseId (getAttrL a "id") (secName (st.secCtr + 1)) :: Δc, ?_, ?_, ?_,
            by omega, by omega, ?_⟩
          · rw [P1, sectionIds_headState]
            simp [List.append_assoc]
          · intro i hi
            rw [allIdsF_single, allIdsN_setAttr_id]
            rcases List.mem_cons.mp hi with rfl | hiΔ
            · simp only [countId, if_pos rfl]
              have hno : reuseId (getAttrL a "id") (secName (st.secCtr + 1)) ∉
                  allIdsF (walkF (headState st t a c) c).1 := by
                intro hmem
                exact assigned_ne (P5 _ hmem) hclean_c hxf rfl
              rw [countId_eq_zero_of_not_mem hno]
              simp
            · have hne : reuseId (getAttrL a "id") (secName (st.secCtr + 1)) ≠ i :=
                assigned_ne (P3 i hiΔ) hclean_c hxf
              simp only [countId, if_neg hne, Nat.zero_add]
              exact P2 i hiΔ
          · intro i hi
            rcases List.mem_cons.mp hi with rfl | hiΔ
            · rcases hxf with ⟨hcln, _⟩ | hw
              · left
                cases hid : getAttrL a "id" with
                | none =>
                    rw [hid] at hcln
                    exact absurd rfl (cleanIdB_ne_secName hcln (st.secCtr + 1))
                | some s =>
                    rw [reuseId_reuse _ _ (cleanIdB_ne_empty (hclean s (by simp [allIdsN, hid])))]
                    simp [allIdsN, hid]
              · right
                exact inWindow_mono_right hw (by rw [headState_secCtr]; omega)
                  (by rw [headState_parCtr]; omega)
            · rcases P3 i hiΔ with hin | hw
              · left
                simp only [allIdsN]
                cases getAttrL a "id" <;> simp [hin]
              · right
                exact inWindow_mono_left hw (by rw [headState_secCtr]; omega)
                  (by rw [headState_parCtr])
          · intro i hi
            rw [allIdsF_single, allIdsN_setAttr_id] at hi
            rcases List.mem_cons.mp hi with rfl | hic
            · rcases hxf with ⟨hcln, _⟩ | hw
              · left
                cases hid : getAttrL a "id" with
                | none =>
                    rw [hid] at hcln
                    exact absurd rfl (cleanIdB_ne_secName hcln (st.secCtr + 1))
                | some s =>
                    rw [reuseId_reuse _ _ (cleanIdB_ne_empty (hclean s (by simp [allIdsN, hid])))]
                    simp [allIdsN, hid]
              · right
                exact inWindow_mono_right hw (by rw [headState_secCtr]; omega)
                  (by rw [headState_parCtr]; omega)
            · rcases P5 i hic with hin | hw
              · left
                simp only [allIdsN]
                cases getAttrL a "id" <;> simp [hin]
              · right
                exact inWindow_mono_left hw (by rw [headState_secCtr]; omega)
                  (by rw [headState_parCtr])
      · by_cases hp : isParagraphLike t a = true
        · by_cases hs : st.sections = []
          · -- paragraph creating the synthetic Introduction section
            rw [walkN_paraIntro_eq st t a c hh hp hs]
            dsimp only
            obtain ⟨Δc, P1, P2, P3, P4a, P4b, P5⟩ :=
              walkF_ids (paraStateIntro st a c) c hclean_c hnodup_c
            rw [paraStateIntro_secCtr] at P4a
            rw [paraStateIntro_parCtr] at P4b
            have hgw : inWindow st (paraStateIntro st a c) (secName (st.secCtr + 1)) := by
              refine Or.inl ⟨st.secCtr + 1, by omega, ?_, rfl⟩
              rw [paraStateIntro_secCtr]
            have hpidf : (cleanIdB (paraId st a) = true ∧ paraId st a ∉ allIdsF c) ∨
                inWindow st (paraStateIntro st a c) (paraId st a) := by
              cases hid : getAttrL a "id" with
              | some s =>
                  have hsc : cleanIdB s = true := hclean s (by simp [allIdsN, hid])
                  have hs_notin : s ∉ allIdsF c := by
                    simp only [allIdsN, hid, List.singleton_append, List.nodup_cons] at hnodup
                    exact hnodup.1
                  unfold paraId
                  rw [hid, reuseId_reuse _ _ (cleanIdB_ne_empty hsc)]
                  exact Or.inl ⟨hsc, hs_notin⟩
              | none =>
                  unfold paraId
                  rw [hid]
                  refine Or.inr (Or.inr ⟨st.parCtr + 1, by omega, ?_, rfl⟩)
                  rw [paraStateIntro_parCtr]
            have hgpid : secName (st.secCtr + 1) ≠ paraId st a := by
              cases hid : getAttrL a "id" with
              | some s =>
                  have hsc : cleanIdB s = true := hclean s (by simp [allIdsN, hid])
                  unfold paraId
                  rw [hid, reuseId_reuse _ _ (cleanIdB_ne_empty hsc)]
                  exact fun he => cleanIdB_ne_secName hsc (st.secCtr + 1) he.symm
              | none =>
                  unfold paraId
                  rw [hid]
                  exact secName_ne_parName _ _
            have hout : allIdsF
                [Node.elem "div" [("id", secName (st.secCtr + 1))] [],
                 Node.elem t (setAttr a "id" (paraId st a))
                   (walkF (paraStateIntro st a c) c).1] =
                secName (st.secCtr + 1) :: paraId st a ::
                  allIdsF (walkF (paraStateIntro st a c) c).1 := by
              simp [allIdsF, allIdsN, getAttrL, getAttr_setAttr_self]
            refine ⟨secName (st.secCtr + 1) :: paraId st a :: Δc, ?_, ?_, ?_,
              by omega, by omega, ?_⟩
            · rw [P1, sectionIds_paraStateIntro, hs]
              simp [sectionIds]
            · intro i hi
              rw [hout]
              have hgpid' : ¬(paraId st a = secName (st.secCtr + 1)) :=
                fun he => hgpid he.symm
              rcases List.mem_cons.mp hi with rfl | hi2
              · simp only [countId, if_pos rfl, if_neg hgpid']
                have hno : secName (st.secCtr + 1) ∉
                    allIdsF (walkF (paraStateIntro st a c) c).1 := by
                  intro hmem
                  exact assigned_ne (P5 _ hmem) hclean_c (Or.inr hgw) rfl
                rw [countId_eq_zero_of_not_mem hno]
                simp
              · rcases List.mem_cons.mp hi2 with rfl | hiΔ
                · have hgne : secName (st.secCtr + 1) ≠ paraId st a := hgpid
                  simp only [countId, if_neg hgne, if_pos rfl, Nat.zero_add]
                  have hno : paraId st a ∉
                      allIdsF (walkF (paraStateIntro st a c) c).1 := by
                    intro hmem
                    exact assigned_ne (P5 _ hmem) hclean_c hpidf rfl
                  rw [countId_eq_zero_of_not_mem hno]
                  simp
                · have hg_ne : secName (st.secCtr + 1) ≠ i :=
                    assigned_ne (P3 i hiΔ) hclean_c (Or.inr hgw)
                  have hpid_ne : paraId st a ≠ i :=
                    assigned_ne (P3 i hiΔ) hclean_c hpidf
                  simp only [countId, if_neg hg_ne, if_neg hpid_ne, Nat.zero_add]
                  exact P2 i hiΔ
            · intro i hi
              rcases List.mem_cons.mp hi with rfl | hi2
              · right
                exact inWindow_mono_right hgw (by rw [paraStateIntro_secCtr]; omega)
                  (by rw [paraStateIntro_parCtr]; omega)
              · rcases List.mem_cons.mp hi2 with rfl | hiΔ
                · rcases hpidf with ⟨hcln, _⟩ | hw
                  · left
                    cases hid : getAttrL a "id" with
                    | some s =>
                        unfold paraId
                        rw [hid, reuseId_reuse _ _
                          (cleanIdB_ne_empty (hclean s (by simp [allIdsN, hid])))]
                        simp [allIdsN, hid]
                    | none =>
                        unfold paraId at hcln
                        rw [hid] at hcln
                        exact absurd rfl (cleanIdB_ne_parName hcln (st.parCtr + 1))
                  · right
                    exact inWindow_mono_right hw (by rw [paraStateIntro_secCtr]; omega)
                      (by rw [paraStateIntro_parCtr]; omega)
                · rcases P3 i hiΔ with hin | hw
                  · left
                    simp only [allIdsN]
                    cases getAttrL a "id" <;> simp [hin]
                  · right
                    exact inWindow_mono_left hw (by rw [paraStateIntro_secCtr]; omega)
                      (by rw [paraStateIntro_parCtr]; omega)
            · intro i hi
              rw [hout] at hi
              rcases List.mem_cons.mp hi with rfl | hi2
              · right
                exact inWindow_mono_right hgw (by rw [paraStateIntro_secCtr]; omega)
                  (by rw [paraStateIntro_parCtr]; omega)
              · rcases List.mem_cons.mp hi2 with rfl | hic
                · rcases hpidf with ⟨hcln, _⟩ | hw
                  · left
                    cases hid : getAttrL a "id" with
                    | some s =>
                        unfold paraId
                        rw [hid, reuseId_reuse _ _
                          (cleanIdB_ne_empty (hclean s (by simp [allIdsN, hid])))]
                        simp [allIdsN, hid]
                    | none =>
                        unfold paraId at hcln
                        rw [hid] at hcln
                        exact absurd rfl (cleanIdB_ne_parName hcln (st.parCtr + 1))
                  · right
                    exact inWindow_mono_right hw (by rw [paraStateIntro_secCtr]; omega)
                      (by rw [paraStateIntro_parCtr]; omega)
                · rcases P5 i hic with hin | hw
                  · left
                    simp only [allIdsN]
                    cases getAttrL a "id" <;> simp [hin]
                  · right
                    exact inWindow_mono_left hw (by rw [paraStateIntro_secCtr]; omega)
                      (by rw [paraStateIntro_parCtr]; omega)
          · -- ordinary paragraph
            rw [walkN_para_eq st t a c hh hp hs]
            dsimp only
            obtain ⟨Δc, P1, P2, P3, P4a, P4b, P5⟩ :=
              walkF_ids (paraStateNormal st a c) c hclean_c hnodup_c
            rw [paraStateNormal_secCtr] at P4a
            rw [paraStateNormal_parCtr] at P4b
            have hpidf : (cleanIdB (paraId st a) = true ∧ paraId st a ∉ allIdsF c) ∨
                inWindow st (paraStateNormal st a c) (paraId st a) := by
              cases hid : getAttrL a "id" with
              | some s =>
                  have hsc : cleanIdB s = true := hclean s (by simp [allIdsN, hid])
                  have hs_notin : s ∉ allIdsF c := by
                    simp only [allIdsN, hid, List.singleton_append, List.nodup_cons] at hnodup
                    exact hnodup.1
                  unfold paraId
                  rw [hid, reuseId_reuse _ _ (cleanIdB_ne_empty hsc)]
                  exact Or.inl ⟨hsc, hs_notin⟩
              | none =>
                  unfold paraId
                  rw [hid]
                  refine Or.inr (Or.inr ⟨st.parCtr + 1, by omega, ?_, rfl⟩)
                  rw [paraStateNormal_parCtr]
            refine ⟨paraId st a :: Δc, ?_, ?_, ?_, by omega, by omega, ?_⟩
            · rw [P1, sectionIds_paraStateNormal st a c hs]
              simp [List.append_assoc]
            · intro i hi
              rw [allIdsF_single, allIdsN_setAttr_id]
              rcases List.mem_cons.mp hi with rfl | hiΔ
              · simp only [countId, if_pos rfl]
                have hno : paraId st a ∉ allIdsF (walkF (paraStateNormal st a c) c).1 := by
                  intro hmem
                  exact assigned_ne (P5 _ hmem) hclean_c hpidf rfl
                rw [countId_eq_zero_of_not_mem hno]
                simp
              · have hne : paraId st a ≠ i :=
                  assigned_ne (P3 i hiΔ) hclean_c hpidf
                simp only [countId, if_neg hne, Nat.zero_add]
                exact P2 i hiΔ
            · intro i hi
              rcases List.mem_cons.mp hi with rfl | hiΔ
              · rcases hpidf with ⟨hcln, _⟩ | hw
                · left
                  cases hid : getAttrL a "id" with
                  | some s =>
                      unfold paraId
                      rw [hid, reuseId_reuse _ _
                        (cleanIdB_ne_empty (hclean s (by simp [allIdsN, hid])))]
                      simp [allIdsN, hid]
                  | none =>
                      unfold paraId at hcln
                      rw [hid] at hcln
                      exact absurd rfl (cleanIdB_ne_parName hcln (st.parCtr + 1))
                · right
                  exact inWindow_mono_right hw (by rw [paraStateNormal_secCtr]; omega)
                    (by rw [paraStateNormal_parCtr]; omega)
              · rcases P3 i hiΔ with hin | hw
                · left
                  simp only [allIdsN]
                  cases getAttrL a "id" <;> simp [hin]
                · right
                  exact inWindow_mono_left hw (by rw [paraStateNormal_secCtr])
                    (by rw [paraStateNormal_parCtr]; omega)
            · intro i hi
              rw [allIdsF_single, allIdsN_setAttr_id] at hi
              rcases List.mem_cons.mp hi with rfl | hic
              · rcases hpidf with ⟨hcln, _⟩ | hw
                · left
                  cases hid : getAttrL a "id" with
                  | some s =>
                      unfold paraId
                      rw [hid, reuseId_reuse _ _
                        (cleanIdB_ne_empty (hclean s (by simp [allIdsN, hid])))]
                      simp [allIdsN, hid]
                  | none =>
                      unfold paraId at hcln
                      rw [hid] at hcln
                      exact absurd rfl (cleanIdB_ne_parName hcln (st.parCtr + 1))
                · right
                  exact inWindow_mono_right hw (by rw [paraStateNormal_secCtr]; omega)
                    (by rw [paraStateNormal_parCtr]; omega)
              · rcases P5 i hic with hin | hw
                · left
                  simp only [allIdsN]
                  cases getAttrL a "id" <;> simp [hin]
                · right
                  exact inWindow_mono_left hw (by rw [paraStateNormal_secCtr])
                    (by rw [paraStateNormal_parCtr]; omega)
        · -- other element: traversed, not annotated
          have hp' : isParagraphLike t a = false := by simpa using hp
          rw [walkN_other_eq st t a c hh hp']
          dsimp only
          obtain ⟨Δc, P1, P2, P3, P4a, P4b, P5⟩ := walkF_ids st c hclean_c hnodup_c
          refine ⟨Δc, P1, ?_, ?_, P4a, P4b, ?_⟩
          · intro i hi
            rw [allIdsF_single]
            simp only [allIdsN]
            cases hid : getAttrL a "id" with
            | none =>
                simp only [List.nil_append]
                exact P2 i hi
            | some s =>
                have hsc : cleanIdB s = true := hclean s (by simp [allIdsN, hid])
                have hs_notin : s ∉ allIdsF c := by
                  simp only [allIdsN, hid, List.singleton_append, List.nodup_cons] at hnodup
                  exact hnodup.1
                have hne : s ≠ i :=
                  assigned_ne_clean (P3 i hi) hclean_c ⟨hsc, hs_notin⟩
                simp only [List.singleton_append, countId, if_neg hne, Nat.zero_add]
                exact P2 i hi
          · intro i hi
            rcases P3 i hi with hin | hw
            · left
              simp only [allIdsN]
              cases getAttrL a "id" <;> simp [hin]
            · right
              exact hw
          · intro i hi
            rw [allIdsF_single] at hi
            simp only [allIdsN] at hi
            cases hid : getAttrL a "id" with
            | none =>
                rw [hid] at hi
                simp only [List.nil_append] at hi
                rcases P5 i hi with hin | hw
                · left
                  simp [allIdsN, hid, hin]
                · right
                  exact hw
            | some s =>
                rw [hid] at hi
                simp only [List.singleton_append, List.mem_cons] at hi
                rcases hi with rfl | hic
                · left
                  simp [allIdsN, hid]
                · rcases P5 i hic with hin | hw
                  · left
                    simp [allIdsN, hid, hin]
                  · right
                    exact hw

theorem walkF_ids : ∀ (st : ExtState) (ns : List Node),
    (∀ i ∈ allIdsF ns, cleanIdB i = true) → (allIdsF ns).Nodup →
    ∃ Δ : List String,
      sectionIds (walkF st ns).2.sections = sectionIds st.sections ++ Δ
      ∧ (∀ i ∈ Δ, countId i (allIdsF (walkF st ns).1) = 1)
      ∧ (∀ i ∈ Δ, i ∈ allIdsF ns ∨ inWindow st (walkF st ns).2 i)
      ∧ st.secCtr ≤ (walkF st ns).2.secCtr
      ∧ st.parCtr ≤ (walkF st ns).2.parCtr
      ∧ (∀ i ∈ allIdsF (walkF st ns).1, i ∈ allIdsF ns ∨ inWindow st (walkF st ns).2 i)
  | st, [] => by
      intro _ _
      refine ⟨[], by simp [walkF], ?_, by simp, ?_, ?_, ?_⟩
      · intro i hi
        simp at hi
      · simp [walkF]
      · simp [walkF]
      · intro i hi
        simp [walkF, allIdsF] at hi
  | st, n :: rest => by
      intro hclean hnodup
      have hcl_n : ∀ i ∈ allIdsN n, cleanIdB i = true := by
        intro i hi
        apply hclean
        simp [allIdsF, hi]
      have hcl_r : ∀ i ∈ allIdsF rest, cleanIdB i = true := by
        intro i hi
        apply hclean
        simp [allIdsF, hi]
      have hnd : (allIdsN n).Nodup ∧ (allIdsF rest).Nodup ∧
          ∀ i ∈ allIdsN n, i ∉ allIdsF rest := by
        simp only [allIdsF] at hnodup
        rw [List.nodup_append] at hnodup
        exact ⟨hnodup.1, hnodup.2.1, fun i hi hm => hnodup.2.2 hi hm⟩
      obtain ⟨Δn, Q1, Q2, Q3, Q4a, Q4b, Q5⟩ := walkN_ids st n hcl_n hnd.1
      obtain ⟨Δr, R1, R2, R3, R4a, R4b, R5⟩ := walkF_ids (walkN st n).2 rest hcl_r hnd.2.1
      rw [walkF_cons_eq]
      dsimp only
      refine ⟨Δn ++ Δr, ?_, ?_, ?_, ?_, ?_, ?_⟩
      · show sectionIds (walkF (walkN st n).2 rest).2.sections = _
        rw [R1, Q1, List.append_assoc]
      · intro i hi
        show countId i (allIdsF ((walkN st n).1 ++ (walkF (walkN st n).2 rest).1)) = 1
        rw [allIdsF_append, countId_append]
        rcases List.mem_append.mp hi with hiN | hiR
        · rw [Q2 i hiN]
          have hno : i ∉ allIdsF (walkF (walkN st n).2 rest).1 := by
            intro hmem
            rcases R5 i hmem with hinr | hwr
            · rcases Q3 i hiN with hin | hw
              · exact hnd.2.2 i hin hinr
              · exact inWindow_not_clean (hcl_r i hinr) hw
            · rcases Q3 i hiN with hin | hw
              · exact inWindow_not_clean (hcl_n i hin) hwr
              · exact inWindow_disjoint hw hwr
          rw [countId_eq_zero_of_not_mem hno]
        · rw [R2 i hiR]
          have hno : i ∉ allIdsF (walkN st n).1 := by
            intro hmem
            rcases Q5 i hmem with hinn | hwn
            · rcases R3 i hiR with hinr | hwr
              · exact hnd.2.2 i hinn hinr
              · exact inWindow_not_clean (hcl_n i hinn) hwr
            · rcases R3 i hiR with hinr | hwr
              · exact inWindow_not_clean (hcl_r i hinr) hwn
              · exact inWindow_disjoint hwn hwr
          rw [countId_eq_zero_of_not_mem hno]
      · intro i hi
        rcases List.mem_append.mp hi with hiN | hiR
        · rcases Q3 i hiN with hin | hw
          · left
            simp [allIdsF, hin]
          · right
            exact inWindow_mono_right hw R4a R4b
        · rcases R3 i hiR with hin | hw
          · left
            simp [allIdsF, hin]
          · right
            exact inWindow_mono_left hw Q4a Q4b
      · exact le_trans Q4a R4a
      · exact le_trans Q4b R4b
      · intro i hi
        rw [allIdsF_append] at hi
        rcases List.mem_append.mp hi with hiN | hiR
        · rcases Q5 i hiN with hin | hw
          · left
            simp [allIdsF, hin]
          · right
            exact inWindow_mono_right hw R4a R4b
        · rcases R5 i hiR with hin | hw
          · left
            simp [allIdsF, hin]
          · right
            exact inWindow_mono_left hw Q4a Q4b

end


mutual

theorem mapFirstN_ids {α : Type} (p : Node → Bool) (f : Node → Node × α) :
    ∀ (n n' : Node) (v : α), mapFirstN p f n = some (n', v) →
    ∃ xs ys A, allIdsN n = xs ++ (allIdsN A ++ ys)
      ∧ allIdsN n' = xs ++ (allIdsN (f A).1 ++ ys) ∧ v = (f A).2
  | .text s, n', v => by
      intro h
      unfold mapFirstN at h
      split at h
      · have h' : f (.text s) = (n', v) := by simpa using h
        exact ⟨[], [], .text s, by simp [allIdsN], by simp [h'], by simp [h']⟩
      · cases h
  | .elem t a c, n', v => by
      intro h
      unfold mapFirstN at h
      split at h
      · have h' : f (.elem t a c) = (n', v) := by simpa using h
        exact ⟨[], [], .elem t a c, by simp, by simp [h'], by simp [h']⟩
      · split at h
        · rename_i c' w heq
          simp only [Option.some.injEq, Prod.mk.injEq] at h
          obtain ⟨h1, h2⟩ := h
          subst h1
          subst h2
          obtain ⟨xs, ys, A, e1, e2, e3⟩ := mapFirstF_ids p f c c' w heq
          refine ⟨(match getAttrL a "id" with | some i => [i] | none => []) ++ xs,
            ys, A, ?_, ?_, e3⟩
          · simp only [allIdsN, e1, List.append_assoc]
          · simp only [allIdsN, e2, List.append_assoc]
        · cases h

theorem mapFirstF_ids {α : Type} (p : Node → Bool) (f : Node → Node × α) :
    ∀ (ns ns' : List Node) (v : α), mapFirstF p f ns = some (ns', v) →
    ∃ xs ys A, allIdsF ns = xs ++ (allIdsN A ++ ys)
      ∧ allIdsF ns' = xs ++ (allIdsN (f A).1 ++ ys) ∧ v = (f A).2
  | [], ns', v => by
      intro h
      cases h
  | n :: rest, ns', v => by
      intro h
      unfold mapFirstF at h
      split at h
      · rename_i n' w heq
        simp only [Option.some.injEq, Prod.mk.injEq] at h
        obtain ⟨h1, h2⟩ := h
        subst h1
        subst h2
        obtain ⟨xs, ys, A, e1, e2, e3⟩ := mapFirstN_ids p f n n' w heq
        refine ⟨xs, ys ++ allIdsF rest, A, ?_, ?_, e3⟩
        · simp only [allIdsF, e1, List.append_assoc]
        · simp only [allIdsF, e2, List.append_assoc]
      · split at h
        · rename_i rest' w heq
          simp only [Option.some.injEq, Prod.mk.injEq] at h
          obtain ⟨h1, h2⟩ := h
          subst h1
          subst h2
          obtain ⟨xs, ys, A, e1, e2, e3⟩ := mapFirstF_ids p f rest rest' w heq
          refine ⟨allIdsN n ++ xs, ys, A, ?_, ?_, e3⟩
          · simp only [allIdsF, e1, List.append_assoc]
          · simp only [allIdsF, e2, List.append_assoc]
        · cases h

end

theorem processArticle_ids (A : Node)
    (hclean : ∀ i ∈ allIdsN A, cleanIdB i = true)
    (hnodup : (allIdsN A).Nodup) :
    ∀ i ∈ sectionIds (processArticle A).2.sections,
      countId i (allIdsN (processArticle A).1) = 1 ∧
      (i ∈ allIdsN A ∨ cleanIdB i = false) := by
  cases A with
  | text s =>
      intro i hi
      simp [processArticle, sectionIds] at hi
  | elem t a c =>
      have hclean_c : ∀ i ∈ allIdsF c, cleanIdB i = true := by
        intro i hi
        apply hclean
        simp only [allIdsN]
        cases getAttrL a "id" <;> simp [hi]
      have hnodup_c : (allIdsF c).Nodup := by
        simp only [allIdsN] at hnodup
        cases hid0 : getAttrL a "id" with
        | none => rw [hid0] at hnodup; simpa using hnodup
        | some s =>
            rw [hid0] at hnodup
            simp only [List.singleton_append, List.nodup_cons] at hnodup
            exact hnodup.2
      obtain ⟨Δ, P1, P2, P3, _, _, P5⟩ := walkF_ids initState c hclean_c hnodup_c
      intro i hi
      simp only [processArticle] at hi ⊢
      rw [P1] at hi
      simp only [initState, sectionIds, List.nil_append] at hi
      refine ⟨?_, ?_⟩
      · simp only [allIdsN, countId_append]
        rw [P2 i hi]
        cases hid : getAttrL a "id" with
        | none => simp [countId]
        | some s =>
            have hsc : cleanIdB s = true := hclean s (by simp [allIdsN, hid])
            have hs_notin : s ∉ allIdsF c := by
              simp only [allIdsN, hid, List.singleton_append, List.nodup_cons] at hnodup
              exact hnodup.1
            have hne : s ≠ i := assigned_ne_clean (P3 i hi) hclean_c ⟨hsc, hs_notin⟩
            simp [countId, hne]
      · rcases P3 i hi with hin | hw
        · left
          simp only [allIdsN]
          cases getAttrL a "id" <;> simp [hin]
        · right
          cases hcb : cleanIdB i with
          | false => rfl
          | true => exact absurd (inWindow_not_clean hcb hw) not_false

theorem mapFirstF_outline_ids (p : Node → Bool) (doc m : List Node) (v : ArticleView)
    (hclean : ∀ i ∈ allIdsF doc, cleanIdB i = true)
    (hnodup : (allIdsF doc).Nodup)
    (h : mapFirstF p processArticle doc = some (m, v)) :
    ∀ i ∈ sectionIds v.sections, countId i (allIdsF m) = 1 := by
  obtain ⟨xs, ys, A, e1, e2, e3⟩ := mapFirstF_ids p processArticle doc m v h
  intro i hi
  rw [e3] at hi
  have hcleanA : ∀ j ∈ allIdsN A, cleanIdB j = true := by
    intro j hj
    apply hclean
    rw [e1]
    simp [hj]
  have hnodup' : (xs ++ (allIdsN A ++ ys)).Nodup := by rw [← e1]; exact hnodup
  obtain ⟨hnd_xs, hnd_Ays, hdisj_xs⟩ := List.nodup_append.mp hnodup'
  obtain ⟨hnd_A, hnd_ys, hdisj_A⟩ := List.nodup_append.mp hnd_Ays
  obtain ⟨hcnt, hloc⟩ := processArticle_ids A hcleanA hnd_A i hi
  have hix : i ∉ xs := by
    intro hmem
    rcases hloc with hin | hfalse
    · exact hdisj_xs hmem (by simp [hin])
    · have : cleanIdB i = true := hclean i (by rw [e1]; simp [hmem])
      rw [hfalse] at this
      cases this
  have hiy : i ∉ ys := by
    intro hmem
    rcases hloc with hin | hfalse
    · exact hdisj_A hin hmem
    · have : cleanIdB i = true := hclean i (by rw [e1]; simp [hmem])
      rw [hfalse] at this
      cases this
  rw [e2, countId_append, countId_append, hcnt,
    countId_eq_zero_of_not_mem hix, countId_eq_zero_of_not_mem hiy]

/-- C2 (amended): for a document whose pre-existing element ids are
pairwise distinct, nonempty, and never of the generated `sec_<n>` /
`p_<n>` shapes, every id appearing anywhere in the outline returned by
`html_to_article_view` (section ids and paragraph ids alike) is carried
by exactly one element of the mutated HTML returned alongside it.
Without the distinctness hypothesis the property fails (see the
duplicate-id counterexample). -/
theorem anchor_completeness (doc m : List Node) (v : ArticleView)
    (hclean : ∀ i ∈ allIdsF doc, cleanIdB i = true)
    (hnodup : (allIdsF doc).Nodup)
    (hres : html_to_article_view doc = Except.ok (m, v)) :
    ∀ i ∈ sectionIds v.sections, countId i (allIdsF m) = 1 := by
  have hsplit : mapFirstF isArticleSchema processArticle doc = some (m, v) ∨
      mapFirstF isArticleTag processArticle doc = some (m, v) := by
    unfold html_to_article_view at hres
    split at hres
    · rename_i r heq
      simp only [Except.ok.injEq] at hres
      subst hres
      exact Or.inl heq
    · split at hres
      · rename_i r heq
        simp only [Except.ok.injEq] at hres
        subst hres
        exact Or.inr heq
      · cases hres
  rcases hsplit with h | h
  · exact mapFirstF_outline_ids isArticleSchema doc m v hclean hnodup h
  · exact mapFirstF_outline_ids isArticleTag doc m v hclean hnodup h

/-- Witness: a concrete clean document on which `anchor_completeness`
applies, instantiated at the outline id `"p_1"`. -/
theorem anchor_completeness_witness : countId "p_1" (allIdsF c2m) = 1 :=
  anchor_completeness c2doc c2m c2view (by decide) (by decide) (by rfl)
    "p_1" (by decide)

/-- C2 counterexample: when two elements of the input share the id
`"x"`, the outline contains `"x"` but the mutated HTML carries it on two
elements, so the claimed exactly-one property fails as stated. -/
theorem anchor_completeness_duplicate_ids :
    ∃ (doc m : List Node) (v : ArticleView),
      html_to_article_view doc = Except.ok (m, v) ∧
      ∃ i ∈ sectionIds v.sections, countId i (allIdsF m) ≠ 1 := by
  refine ⟨[Node.elem "article" [("itemtype", "https://schema.org/Article")]
      [Node.elem "p" [("id", "x")] [Node.text "a"],
       Node.elem "p" [("id", "x")] [Node.text "b"]]],
    [Node.elem "article" [("itemtype", "https://schema.org/Article")]
      [Node.elem "div" [("id", "sec_1")] [],
       Node.elem "p" [("id", "x")] [Node.text "a"],
       Node.elem "p" [("id", "x")] [Node.text "b"]]],
    { title := ""
      sections := [{ id := "sec_1"
                     level := 2
                     heading := "Introduction"
                     paragraphs := [{ id := "x", text := "a" },
                                    { id := "x", text := "b" }] }] },
    by rfl, "x", by decide, by decide⟩

end MCE
